import Mathlib

/-!
Verification of the RA Modular Logic Generator condition pipeline.

This file shallowly embeds the JavaScript sources of the repository
(`delta-mem-check.js`, `rr-optimization.js`, the bit-compression module,
the grammar codec, `groups.js`, `bitfield-operations.js` and
`expansion-system.js`) as executable Lean definitions over `List Char`
strings, and proves or refutes the frozen specification claims about them.

JavaScript strings are modelled as `List Char`.  The handful of regular
expressions used by the source are modelled by dedicated scanning
functions that reproduce the exact matching behaviour (left-most match,
greedy quantifiers, word boundaries, negative look-ahead, and the
non-rescanning semantics of `String.replace` with the `g` flag).
Loops whose index can jump forward are modelled with an explicit fuel
argument; every call site passes fuel that exceeds the maximal possible
number of iterations (the index strictly increases each step), so the
fuel never runs out and the definitions agree with the source loops.
-/

namespace MLG

/-- JavaScript strings are modelled as lists of characters. -/
abbrev Str := List Char

/-- Convert a Lean string literal to the `List Char` model. -/
def strv (s : String) : Str := s.data

/-- Whitespace as trimmed by JavaScript `String.trim` (ASCII forms). -/
def isWS (c : Char) : Bool := c = ' ' || c = '\t' || c = '\n' || c = '\r'

/-- JavaScript `String.trim`: drop whitespace from both ends. -/
def trimL (s : Str) : Str := ((s.dropWhile isWS).reverse.dropWhile isWS).reverse

/-- ASCII upper-casing, as JavaScript `toUpperCase` acts on the ASCII inputs used here. -/
def toUpperAscii (c : Char) : Char :=
  if 'a' ≤ c ∧ c ≤ 'z' then Char.ofNat (c.toNat - 32) else c

/-- A regex `\w` word character: `[A-Za-z0-9_]`. -/
def isWordChar (c : Char) : Bool := c.isAlphanum || c = '_'

/-- A regex word boundary `\b` directly before a word character:
the previous character must be absent (start of string) or a non-word character. -/
def boundaryBefore (pv : Option Char) : Bool :=
  match pv with
  | none => true
  | some c => !isWordChar c

/-- Negative look-ahead `(?![c])`: succeeds when the next character (if
any) differs from the banned one. -/
def laOK (la : Option Char) (s : Str) : Bool :=
  match la, s with
  | some b, d :: _ => !(d = b)
  | _, _ => true

/-- One pass of `String.replace(/\bPAT(?![LA])/g, REPL)`:
scan left to right, at each position require a word boundary before the
pattern and (optionally) that the character following the match is not
`la`; on a match emit the replacement and continue after the matched text
(the replacement is not rescanned).  `fuel` bounds the number of scan
steps; each step consumes at least one character of the input, so
`fuel = s.length` is always sufficient. -/
def replaceWBAux (pat repl : Str) (la : Option Char) : Nat → Option Char → Str → Str
  | 0, _, s => s
  | _ + 1, _, [] => []
  | fuel + 1, pv, c :: rest =>
    if boundaryBefore pv ∧ List.isPrefixOf pat (c :: rest) ∧
        laOK la (List.drop pat.length (c :: rest)) then
      repl ++ replaceWBAux pat repl la fuel pat.getLast? (List.drop pat.length (c :: rest))
    else
      c :: replaceWBAux pat repl la fuel (some c) rest

/-- `String.replace(/\bPAT(?![la])/g, repl)` over the whole string. -/
def replaceWB (pat repl : Str) (la : Option Char) (s : Str) : Str :=
  replaceWBAux pat repl la s.length none s

/-- One pass of `String.replace(/PAT/g, REPL)` for a plain pattern:
left-to-right, non-overlapping, the replacement is not rescanned. -/
def replaceAllAux (pat repl : Str) : Nat → Str → Str
  | 0, s => s
  | _ + 1, [] => []
  | fuel + 1, c :: rest =>
    if List.isPrefixOf pat (c :: rest) then
      repl ++ replaceAllAux pat repl fuel (List.drop pat.length (c :: rest))
    else
      c :: replaceAllAux pat repl fuel rest

/-- `String.replace(/PAT/g, repl)` over the whole string. -/
def replaceAll (pat repl : Str) (s : Str) : Str :=
  replaceAllAux pat repl s.length s

/-- JavaScript `String.replace(pat, repl)` with a plain-string pattern:
replace only the first occurrence. -/
def replaceFirst (pat repl : Str) : Str → Str
  | [] => []
  | c :: rest =>
    if List.isPrefixOf pat (c :: rest) then
      repl ++ List.drop pat.length (c :: rest)
    else
      c :: replaceFirst pat repl rest

/-- `String.replace(/^PAT/, repl)`: replace the pattern only when anchored
at the start of the string. -/
def replaceStart (pat repl : Str) (s : Str) : Str :=
  if List.isPrefixOf pat s then repl ++ List.drop pat.length s else s

/-- A `Condition` record, exactly the object shape built by
`createDefaultCondition` in `bitfield-operations.js` (and by the parser
and `syncBitfieldFromText`); all text fields are JavaScript strings. -/
structure Condition where
  lineId : Nat
  groupId : Nat
  flag : Str
  type : Str
  size : Str
  memory : Str
  cmp : Str
  compareType : Str
  compareSize : Str
  value : Str
  hits : Str
  bytes : Str
  expanded : Bool
  expandedLines : List Str
deriving DecidableEq, Repr

-- ===========================================================================
-- delta-mem-check.js
-- ===========================================================================

/-- The delta conversion applied per line by `applyDeltaMemCheck`:
`.replace(/\b0xH/g, 'd0xH').replace(/\b0x(?![d])/g, 'd0x')`. -/
def deltaConvLine (line : Str) : Str :=
  replaceWB (strv ("0x")) (strv ("d0x")) (some 'd')
    (replaceWB (strv ("0xH")) (strv ("d0xH")) none line)

/-- The mem conversion applied per line by `applyDeltaMemCheck`:
`.replace(/\bd0xH/g, '0xH').replace(/\bd0x(?![H])/g, '0x')`. -/
def memConvLine (line : Str) : Str :=
  replaceWB (strv ("d0x")) (strv ("0x")) (some 'H')
    (replaceWB (strv ("d0xH")) (strv ("0xH")) none line)

/-- `applyDeltaMemCheck(condition, expandedLines)` from `delta-mem-check.js`:
if neither operand type of `condition` is Delta or Mem, return the lines
unchanged; otherwise build a delta copy and a mem copy of every line
(`I:`-flagged lines are passed through untouched), append a `0=0`
accumulator to each copy when the flag is `A:` or `B:`, and return the
delta block followed by the mem block. -/
def applyDeltaMemCheck (condition : Condition) (expandedLines : List Str) : List Str :=
  let leftIsDeltaOrMem := condition.type = strv ("Delta") ∨ condition.type = strv ("Mem")
  let rightIsDeltaOrMem :=
    condition.compareType = strv ("Delta") ∨ condition.compareType = strv ("Mem")
  if ¬ leftIsDeltaOrMem ∧ ¬ rightIsDeltaOrMem then
    expandedLines
  else
    let deltaLines := expandedLines.map fun line =>
      if List.isPrefixOf (strv ("I:")) line then line else deltaConvLine line
    let memLines := expandedLines.map fun line =>
      if List.isPrefixOf (strv ("I:")) line then line else memConvLine line
    let deltaLines' :=
      if condition.flag = strv ("A:") ∨ condition.flag = strv ("B:") then
        deltaLines ++ [strv ("0=0")]
      else deltaLines
    let memLines' :=
      if condition.flag = strv ("A:") ∨ condition.flag = strv ("B:") then
        memLines ++ [strv ("0=0")]
      else memLines
    deltaLines' ++ memLines'

/-- The sequence of six global replaces labelled "Invert comparisons" in
`applyAndOrNextCheck`, applied in source order:
`=`→`!=`, `!=`→`=`, `>`→`<=`, `<=`→`>`, `<`→`>=`, `>=`→`<`. -/
def invertCmpChain (s : Str) : Str :=
  replaceAll (strv (">=")) (strv ("<"))
    (replaceAll (strv ("<")) (strv (">="))
      (replaceAll (strv ("<="))  (strv (">"))
        (replaceAll (strv (">")) (strv ("<="))
          (replaceAll (strv ("!=")) (strv ("="))
            (replaceAll (strv ("=")) (strv ("!=")) s)))))

/-- The four replaces labelled "Swap Mem ↔ Delta types" in
`applyAndOrNextCheck`, applied in source order. -/
def dmSwapChain (s : Str) : Str :=
  replaceWB (strv ("d0x")) (strv ("0x")) (some 'H')
    (replaceWB (strv ("d0xH")) (strv ("0xH")) none
      (replaceWB (strv ("0x")) (strv ("d0x")) (some 'd')
        (replaceWB (strv ("0xH")) (strv ("d0xH")) none s)))

/-- The non-final-line transformation of the and-next variant in
`applyAndOrNextCheck`: flag `O:`→`N:` (anchored), then the modifier
chain, then the comparison chain. -/
def andNextTransform (line : Str) : Str :=
  invertCmpChain (dmSwapChain (replaceStart (strv ("O:")) (strv ("N:")) line))

/-- The non-final-line transformation of the or-next variant in
`applyAndOrNextCheck`: flag `N:`→`O:` (anchored), then the modifier
chain, then the comparison chain. -/
def orNextTransform (line : Str) : Str :=
  invertCmpChain (dmSwapChain (replaceStart (strv ("N:")) (strv ("O:")) line))

/-- `applyAndOrNextCheck(condition, expandedLines)` from
`delta-mem-check.js`: when an operand of `condition` is Delta or Mem,
produce an and-next variant and an or-next variant of the lines (the
final line of each variant is left untouched) and concatenate them. -/
def applyAndOrNextCheck (condition : Condition) (expandedLines : List Str) : List Str :=
  let leftIsDeltaOrMem := condition.type = strv ("Delta") ∨ condition.type = strv ("Mem")
  let rightIsDeltaOrMem :=
    condition.compareType = strv ("Delta") ∨ condition.compareType = strv ("Mem")
  if ¬ leftIsDeltaOrMem ∧ ¬ rightIsDeltaOrMem then
    expandedLines
  else
    let n := expandedLines.length
    let andNextLines := expandedLines.enum.map fun p =>
      if p.1 = n - 1 then p.2 else andNextTransform p.2
    let orNextLines := expandedLines.enum.map fun p =>
      if p.1 = n - 1 then p.2 else orNextTransform p.2
    andNextLines ++ orNextLines

-- ===========================================================================
-- Grammar codec: parsing (src/unnamed/part_004) and serialization
-- (convertBitfieldConditionToText in expansion-system.js), with the tables
-- from core-constants.js.
-- ===========================================================================

/-- `OPERAND_FLAGS` from `core-constants.js`. -/
def OPERAND_FLAGS : List Str := [strv ("A:"), strv ("B:"), strv ("I:"), strv ("K:")]

/-- `sizePrefixOrder` from `core-constants.js`. -/
def sizePfxOrder : List Str :=
  [strv ("fF"), strv ("fB"), strv ("fH"), strv ("fI"), strv ("fM"), strv ("fL"),
   strv ("M"), strv ("N"), strv ("O"), strv ("P"), strv ("Q"), strv ("R"),
   strv ("S"), strv ("T"), strv ("L"), strv ("U"), strv ("H"), strv ("W"),
   strv ("X"), strv ("I"), strv ("J"), strv ("G"), strv ("K")]

/-- `sizePrefixMap` from `core-constants.js`. -/
def sizePfxMap : List (Str × Str) :=
  [(strv ("M"), strv ("Bit0")), (strv ("N"), strv ("Bit1")), (strv ("O"), strv ("Bit2")),
   (strv ("P"), strv ("Bit3")), (strv ("Q"), strv ("Bit4")), (strv ("R"), strv ("Bit5")),
   (strv ("S"), strv ("Bit6")), (strv ("T"), strv ("Bit7")), (strv ("L"), strv ("Lower4")),
   (strv ("U"), strv ("Upper4")), (strv ("H"), strv ("8-bit")), (strv ("W"), strv ("24-bit")),
   (strv ("X"), strv ("32-bit")), (strv ("I"), strv ("16-bit BE")), (strv ("J"), strv ("24-bit BE")),
   (strv ("G"), strv ("32-bit BE")), (strv ("K"), strv ("BitCount")), (strv ("fF"), strv ("Float")),
   (strv ("fB"), strv ("Float BE")), (strv ("fH"), strv ("Double32")), (strv ("fI"), strv ("Double32 BE")),
   (strv ("fM"), strv ("MBF32")), (strv ("fL"), strv ("MBF32 LE")), (strv (""), strv ("16-bit"))]

/-- `sizeMapForText` from `core-constants.js` (size name to text code). -/
def sizeMapForText : List (Str × Str) :=
  [(strv ("Bit0"), strv ("M")), (strv ("Bit1"), strv ("N")), (strv ("Bit2"), strv ("O")),
   (strv ("Bit3"), strv ("P")), (strv ("Bit4"), strv ("Q")), (strv ("Bit5"), strv ("R")),
   (strv ("Bit6"), strv ("S")), (strv ("Bit7"), strv ("T")), (strv ("Lower4"), strv ("L")),
   (strv ("Upper4"), strv ("U")), (strv ("8-bit"), strv ("H")), (strv ("16-bit"), strv ("")),
   (strv ("24-bit"), strv ("W")), (strv ("32-bit"), strv ("X")), (strv ("16-bit BE"), strv ("I")),
   (strv ("24-bit BE"), strv ("J")), (strv ("32-bit BE"), strv ("G")), (strv ("BitCount"), strv ("K")),
   (strv ("Float"), strv ("fF")), (strv ("Float BE"), strv ("fB")), (strv ("Double32"), strv ("fH")),
   (strv ("Double32 BE"), strv ("fI")), (strv ("MBF32"), strv ("fM")), (strv ("MBF32 LE"), strv ("fL"))]

/-- The size-code extraction loop of `parseMemoryToken`: the first entry of
`sizePrefixOrder` that is a text-code leading the body is split off. -/
def findSizePfx (body : Str) : Str × Str :=
  match sizePfxOrder.find? (fun cand => List.isPrefixOf cand body) with
  | some p => (p, body.drop p.length)
  | none => (strv (""), body)

/-- `parseMemoryToken(token)` from the parsing module: drop the leading
`0x`, split off a size code, upper-case the remainder; returns
(size, memory). -/
def parseMemoryToken (token : Str) : Str × Str :=
  let body := token.drop 2
  let pr := findSizePfx body
  ((List.lookup pr.1 sizePfxMap).getD (strv ("16-bit")),
   strv ("0x") ++ pr.2.map toUpperAscii)

/-- The record returned by `parseOperandToken`. -/
structure OpTok where
  type : Str
  size : Str
  memory : Str
deriving DecidableEq, Repr

/-- Operand type selected by a `d`/`p`/`b`/`~` modifier letter. -/
def typeForModifier (c : Char) : Str :=
  if c = 'd' then strv ("Delta")
  else if c = 'p' then strv ("Prior")
  else if c = 'b' then strv ("BCD")
  else strv ("Invert")

/-- `parseOperandToken(token)` from the parsing module. -/
def parseOperandToken (token : Str) : OpTok :=
  let trimmed := trimL token
  if List.isPrefixOf (strv ("{recall}")) trimmed then
    ⟨strv ("Recall"), strv (""), strv ("")⟩
  else
    let pr : Str × Str :=
      match trimmed with
      | c :: cs =>
        if c = 'd' ∨ c = 'p' ∨ c = 'b' ∨ c = '~' then (typeForModifier c, cs)
        else (strv ("Mem"), trimmed)
      | [] => (strv ("Mem"), [])
    if List.isPrefixOf (strv ("{recall}")) pr.2 then
      ⟨strv ("Recall"), strv (""), strv ("")⟩
    else if List.isPrefixOf (strv ("0x")) pr.2 then
      let pm := parseMemoryToken pr.2
      ⟨pr.1, pm.1, pm.2⟩
    else
      ⟨strv ("Value"), strv ("8-bit"), trimmed⟩

/-- The `/\.(\d+)\.$/` hits-suffix match of `parseLineToCondition`:
returns (hits, working). -/
def stripHits (s : Str) : Str × Str :=
  match s.reverse with
  | '.' :: rest =>
    let ds := rest.takeWhile Char.isDigit
    if ¬ ds = [] ∧ (rest.drop ds.length).head? = some '.' then
      (ds.reverse, (s.reverse.drop (ds.length + 2)).reverse)
    else (strv (""), s)
  | _ => (strv (""), s)

/-- The `/^([A-Z]:)/` flag match of `parseLineToCondition`:
returns (flag, working). -/
def stripFlag (s : Str) : Str × Str :=
  match s with
  | c :: d :: rest =>
    if ('A' ≤ c ∧ c ≤ 'Z') ∧ d = ':' then ([c, ':'], rest) else (strv (""), s)
  | _ => (strv (""), s)

/-- ASCII letter test (regex `[a-zA-Z]`). -/
def isAsciiAlpha (c : Char) : Bool := ('a' ≤ c && c ≤ 'z') || ('A' ≤ c && c ≤ 'Z')

/-- Hex digit test (regex `[0-9A-Fa-f]`). -/
def isHexDig (c : Char) : Bool := c.isDigit || ('a' ≤ c && c ≤ 'f') || ('A' ≤ c && c ≤ 'F')

/-- The greedy-with-backtracking `[a-zA-Z]{0,2}[0-9A-Fa-f]+` tail of the
memory-token pattern applied to the text after `0x`: try `n` letters, then
`n-1`, down to `0`, and succeed on the first count that leaves a non-empty
hex run; returns the matched text after `0x`. -/
def tryMemLetters (afterOx : Str) : Nat → Option Str
  | 0 =>
    let hx := afterOx.takeWhile isHexDig
    if hx = [] then none else some hx
  | n + 1 =>
    let hx := (afterOx.drop (n + 1)).takeWhile isHexDig
    if hx = [] then tryMemLetters afterOx n
    else some (afterOx.take (n + 1) ++ hx)

/-- The `[dpb~]?0x[a-zA-Z]{0,2}[0-9A-Fa-f]+` alternative of the
left-operand pattern, anchored at the start; returns the matched text. -/
def matchMemToken (s : Str) : Option Str :=
  let pr : Str × Str :=
    match s with
    | c :: cs =>
      if c = 'd' ∨ c = 'p' ∨ c = 'b' ∨ c = '~' then ([c], cs) else ([], s)
    | [] => ([], s)
  if List.isPrefixOf (strv ("0x")) pr.2 then
    let afterOx := pr.2.drop 2
    match tryMemLetters afterOx (min 2 (afterOx.takeWhile isAsciiAlpha).length) with
    | some body => some (pr.1 ++ strv ("0x") ++ body)
    | none => none
  else none

/-- The `-?\d+` alternative of the left-operand pattern, anchored at the
start. -/
def matchIntToken (s : Str) : Option Str :=
  match s with
  | '-' :: rest =>
    let ds := rest.takeWhile Char.isDigit
    if ds = [] then none else some ('-' :: ds)
  | _ =>
    let ds := s.takeWhile Char.isDigit
    if ds = [] then none else some ds

/-- The anchored left-operand pattern
`^(\{recall\}|[dpb~]?0x[a-zA-Z]{0,2}[0-9A-Fa-f]+|-?\d+)` with the
alternatives tried in source order. -/
def matchLeftToken (working : Str) : Option Str :=
  if List.isPrefixOf (strv ("{recall}")) working then some (strv ("{recall}"))
  else
    match matchMemToken working with
    | some t => some t
    | none => matchIntToken working

/-- The comparator match of `parseLineToCondition`: a single arithmetic
operator for operand flags, otherwise the first of
`<= >= != = < >` that leads the remaining text. -/
def cmpMatchFn (isOperandFlag : Bool) (remaining : Str) : Option Str :=
  if isOperandFlag then
    match remaining with
    | c :: _ =>
      if c = '*' ∨ c = '/' ∨ c = '%' ∨ c = '+' ∨ c = '-' ∨ c = '&' ∨ c = '^' then
        some [c]
      else none
    | [] => none
  else
    if List.isPrefixOf (strv ("<=")) remaining then some (strv ("<="))
    else if List.isPrefixOf (strv (">=")) remaining then some (strv (">="))
    else if List.isPrefixOf (strv ("!=")) remaining then some (strv ("!="))
    else if List.isPrefixOf (strv ("=")) remaining then some (strv ("="))
    else if List.isPrefixOf (strv ("<")) remaining then some (strv ("<"))
    else if List.isPrefixOf (strv (">")) remaining then some (strv (">"))
    else none

/-- `parseLineToCondition(line)` from the parsing module.  `lineId`,
`groupId`, `bytes`, `expanded` and `expandedLines` are not produced by the
parser (they are assigned later by `syncBitfieldFromText`); they are
filled with that function's defaults here. -/
def parseLineToCondition (line : Str) : Option Condition :=
  let trimmedLine := trimL line
  if trimmedLine = [] then none
  else
    let hw := stripHits trimmedLine
    let fw := stripFlag hw.2
    let flag := fw.1
    let isOperandFlag := OPERAND_FLAGS.contains flag
    match matchLeftToken fw.2 with
    | none => none
    | some leftToken =>
      let working := fw.2.drop leftToken.length
      let tw := trimL working
      let pair : Str × Str :=
        if ¬ tw = [] then
          match cmpMatchFn isOperandFlag tw with
          | some c => (c, trimL (tw.drop c.length))
          | none =>
            if ¬ isOperandFlag = true then (strv ("="), trimL tw)
            else (strv (""), strv (""))
        else (strv (""), strv (""))
      let cmp := if ¬ isOperandFlag = true ∧ pair.1 = [] then strv ("=") else pair.1
      let rightToken := pair.2
      let left := parseOperandToken leftToken
      let right : Option OpTok :=
        if ¬ rightToken = [] then some (parseOperandToken rightToken) else none
      some {
        lineId := 0, groupId := 0,
        flag := flag,
        type := left.type, size := left.size, memory := left.memory,
        cmp := cmp,
        compareType := (right.map OpTok.type).getD (strv ("Value")),
        compareSize := (right.map OpTok.size).getD (strv ("8-bit")),
        value := (right.map OpTok.memory).getD (strv ("0")),
        hits := if isOperandFlag then strv ("") else hw.1,
        bytes := strv (""), expanded := false, expandedLines := [] }

/-- The `d`/`p`/`b`/`~` modifier letter emitted by the serializer for the
given operand type (empty for every other type). -/
def typeModifier (t : Str) : Str :=
  if t = strv ("Delta") then strv ("d")
  else if t = strv ("Prior") then strv ("p")
  else if t = strv ("BCD") then strv ("b")
  else if t = strv ("Invert") then strv ("~")
  else strv ("")

/-- The serializer's size-code insertion:
`memory.replace('0x', '0x' + (sizeMapForText[size] || ''))` guarded by a
`startsWith('0x')` check. -/
def memWithSizePfx (mem size : Str) : Str :=
  if List.isPrefixOf (strv ("0x")) mem then
    replaceFirst (strv ("0x")) (strv ("0x") ++ (List.lookup size sizeMapForText).getD (strv (""))) mem
  else mem

/-- The right-operand text emitted by `convertBitfieldConditionToText`. -/
def rightPartText (c : Condition) : Str :=
  if c.compareType = strv ("Recall") then strv ("{recall}")
  else if c.compareType = strv ("Value") then c.value
  else typeModifier c.compareType ++ memWithSizePfx c.value c.compareSize

/-- `convertBitfieldConditionToText(condition)` from
`expansion-system.js`. -/
def convertBitfieldConditionToText (c : Condition) : Str :=
  let t1 := c.flag ++ typeModifier c.type
  let t2 := t1 ++ (if c.type = strv ("Value") then c.memory else memWithSizePfx c.memory c.size)
  let t3 := t2 ++ (if ¬ c.cmp = [] then c.cmp ++ rightPartText c else [])
  t3 ++ (if ¬ c.hits = [] ∧ ¬ c.hits = strv ("0") then
           strv (".") ++ c.hits ++ strv (".")
         else [])

-- ===========================================================================
-- Bit-compression module (compressBits)
-- ===========================================================================

/-- The single-bit size letters `['M','N','O','P','Q','R','S','T']` used by
`compressBits`. -/
def bitLetters : List Char := ['M', 'N', 'O', 'P', 'Q', 'R', 'S', 'T']

/-- Upper-case hex digit test (regex `[0-9A-F]`). -/
def isUpperHexDig (c : Char) : Bool := c.isDigit || ('A' ≤ c && c ≤ 'F')

/-- The pattern `(A:|B:)?([dpb~])?0x([MNOPQRST])([0-9A-F]+)` tried at one
position of the line: captures (flag, type modifier, bit letter, address).
At a fixed position the regex is deterministic: when the optional flag or
modifier is present in the text, dropping it cannot make the rest match
(`0x` never starts with `A`, `B`, `d`, `p`, `b` or `~`).
`splitABPfx` is the optional `(A:|B:)` capture. -/
def splitABPfx (s : Str) : Str × Str :=
  if List.isPrefixOf (strv ("A:")) s then (strv ("A:"), s.drop 2)
  else if List.isPrefixOf (strv ("B:")) s then (strv ("B:"), s.drop 2)
  else ([], s)

/-- The optional `([dpb~])` capture. -/
def splitTypePfx (s : Str) : Str × Str :=
  match s with
  | c :: cs =>
    if c = 'd' ∨ c = 'p' ∨ c = 'b' ∨ c = '~' then ([c], cs) else ([], s)
  | [] => ([], s)

/-- The tail `0x([MNOPQRST])([0-9A-F]+)` of the bit-line pattern. -/
def bitTail (s : Str) : Option (Char × Str) :=
  if List.isPrefixOf (strv ("0x")) s then
    match s.drop 2 with
    | b :: rest =>
      if b ∈ bitLetters then
        if rest.takeWhile isUpperHexDig = [] then none
        else some (b, rest.takeWhile isUpperHexDig)
      else none
    | [] => none
  else none

def bitMatchAt (s : Str) : Option (Str × Str × Char × Str) :=
  match bitTail (splitTypePfx (splitABPfx s).2).2 with
  | some ba => some ((splitABPfx s).1, (splitTypePfx (splitABPfx s).2).1, ba.1, ba.2)
  | none => none

/-- `line.match(/(A:|B:)?([dpb~])?0x([MNOPQRST])([0-9A-F]+)/)`: the
left-most position at which the pattern matches. -/
def findBitMatch : Str → Option (Str × Str × Char × Str)
  | [] => none
  | c :: rest =>
    match bitMatchAt (c :: rest) with
    | some r => some r
    | none => findBitMatch rest

/-- The mutable group object accumulated by the first pass of
`compressBits` for a run of bit lines. -/
structure RunData where
  addr : Str
  typePfx : Str
  bits : List Nat
  lines : List Str
  pfxs : List Str
deriving DecidableEq, Repr

/-- A group produced by the first pass of `compressBits`: either a
standalone non-bit line (`bits: null` in the source) or a run of bit
lines. -/
inductive BGroup where
  | plain (line : Str)
  | run (g : RunData)
deriving DecidableEq, Repr

/-- One step of the first (grouping) pass of `compressBits`. -/
def stepGroup (st : List BGroup × Option RunData) (line : Str) : List BGroup × Option RunData :=
  match findBitMatch line with
  | none =>
    match st.2 with
    | some g => (st.1 ++ [BGroup.run g, BGroup.plain line], none)
    | none => (st.1 ++ [BGroup.plain line], none)
  | some (pre, tp, bitc, addr) =>
    let bitIndex := bitLetters.indexOf bitc
    if bitLetters.length ≤ bitIndex then
      -- the `bitIndex === -1` branch of the source (unreachable: the
      -- captured letter is always in the list)
      match st.2 with
      | some g => (st.1 ++ [BGroup.run g, BGroup.plain line], none)
      | none => (st.1 ++ [BGroup.plain line], none)
    else
      match st.2 with
      | some g =>
        if g.addr = addr ∧ g.typePfx = tp then
          (st.1, some { g with
            bits := g.bits ++ [bitIndex],
            lines := g.lines ++ [line],
            pfxs := g.pfxs ++ [pre] })
        else
          (st.1 ++ [BGroup.run g], some ⟨addr, tp, [bitIndex], [line], [pre]⟩)
      | none => (st.1, some ⟨addr, tp, [bitIndex], [line], [pre]⟩)

/-- The first pass of `compressBits`: fold the lines into groups, flushing
the trailing open run. -/
def buildGroups (lines : List Str) : List BGroup :=
  let st := lines.foldl stepGroup ([], none)
  match st.2 with
  | some g => st.1 ++ [BGroup.run g]
  | none => st.1

/-- The flag captured on the last line of a run
(`group.prefixes[group.prefixes.length - 1]`). -/
def lastPfx (g : RunData) : Str := g.pfxs.getLast?.getD []

/-- The second-pass compressibility test of `compressBits`:
at least five bit lines and an `A:` or `B:` flag on the last line. -/
def compressibleRun (g : RunData) : Bool :=
  decide (5 ≤ g.bits.length) &&
    (lastPfx g == strv ("A:") || lastPfx g == strv ("B:"))

/-- Compressibility lifted to groups (`group.bits && group.bits.length >= 5
&& group.hasCompressibleFlag`). -/
def groupIsCompressible : BGroup → Bool
  | BGroup.plain _ => false
  | BGroup.run g => compressibleRun g

/-- `groups.some(...)` of the source: some group of the input is
compressible. -/
def hasCompressibleGroups (lines : List Str) : Bool :=
  (buildGroups lines).any groupIsCompressible

/-- The third-pass per-group output of `compressBits`: a compressible run
becomes a `BitCount` aggregate line plus one opposite-flag line per
missing bit (aggregate first for an `A:` run, last for a `B:` run); any
other group contributes its original lines. -/
def groupOut : BGroup → List Str
  | BGroup.plain l => [l]
  | BGroup.run g =>
    if compressibleRun g then
      let missingBits := (List.range 8).filter (fun b => ¬ g.bits.contains b)
      let lp := lastPfx g
      let bitCountLine := lp ++ g.typePfx ++ strv ("0xK") ++ g.addr
      let missingLines := missingBits.map (fun b =>
        (if lp = strv ("B:") then strv ("A:") else strv ("B:")) ++ g.typePfx ++
          strv ("0x") ++ [bitLetters.getD b ' '] ++ g.addr)
      if lp = strv ("B:") then missingLines ++ [bitCountLine]
      else bitCountLine :: missingLines
    else g.lines

/-- `compressBits(lines)` from the bit-compression module. -/
def compressBits (lines : List Str) : List Str :=
  if ((buildGroups lines).any groupIsCompressible) = true then
    ((buildGroups lines).map groupOut).flatten
  else lines

-- ===========================================================================
-- Claim-side (specification-worded) description of the bit-compression pass
-- and its equivalence with compressBits, used by claim C4.
-- ===========================================================================

theorem length_dropWhile_le' (p : Str → Bool) (l : List Str) :
    (l.dropWhile p).length ≤ l.length := by
  induction l with
  | nil => simp [List.dropWhile]
  | cons a t ih =>
    rw [List.dropWhile_cons]
    split
    · exact le_trans ih (by simp)
    · simp

def runKey (l : Str) : Option (Str × Str) :=
  (findBitMatch l).map (fun c => (c.2.2.2, c.2.1))

def sameRunKey (key : Str × Str) (l : Str) : Bool :=
  match runKey l with
  | some k => decide (k = key)
  | none => false

def bitIdxOf (l : Str) : Nat :=
  bitLetters.indexOf (((findBitMatch l).map (fun c => c.2.2.1)).getD ' ')

def pfxOf (l : Str) : Str :=
  ((findBitMatch l).map (fun c => c.1)).getD []

def mkRun (addr tp : Str) (ls : List Str) : RunData :=
  { addr := addr, typePfx := tp,
    bits := ls.map bitIdxOf,
    lines := ls,
    pfxs := ls.map pfxOf }

def chunkRuns : List Str → List BGroup
  | [] => []
  | l :: rest =>
    match findBitMatch l with
    | none => BGroup.plain l :: chunkRuns rest
    | some cap =>
      BGroup.run (mkRun cap.2.2.2 cap.2.1
          (l :: rest.takeWhile (sameRunKey (cap.2.2.2, cap.2.1)))) ::
        chunkRuns (rest.dropWhile (sameRunKey (cap.2.2.2, cap.2.1)))
termination_by lines => lines.length
decreasing_by
  · simp only [List.length_cons]; omega
  · have := length_dropWhile_le' (sameRunKey (cap.2.2.2, cap.2.1)) rest
    simp only [List.length_cons]; omega

def extendRun (g : RunData) (ls : List Str) : RunData :=
  { g with bits := g.bits ++ ls.map bitIdxOf,
           lines := g.lines ++ ls,
           pfxs := g.pfxs ++ ls.map pfxOf }

def flushState (st : List BGroup × Option RunData) : List BGroup :=
  match st.2 with
  | some g => st.1 ++ [BGroup.run g]
  | none => st.1

theorem extendRun_nil (g : RunData) : extendRun g [] = g := by
  simp [extendRun]

theorem bitTail_mem {s : Str} {b : Char} {addr : Str}
    (h : bitTail s = some (b, addr)) : b ∈ bitLetters := by
  unfold bitTail at h
  split at h
  · split at h
    · rename_i b' rest' heq
      split at h
      · rename_i hmem
        split at h
        · exact absurd h (by simp)
        · simp only [Option.some.injEq, Prod.mk.injEq] at h
          rw [← h.1]
          exact hmem
      · exact absurd h (by simp)
    · exact absurd h (by simp)
  · exact absurd h (by simp)

theorem bitMatchAt_mem {s : Str} {pre tp : Str} {b : Char} {addr : Str}
    (h : bitMatchAt s = some (pre, tp, b, addr)) : b ∈ bitLetters := by
  unfold bitMatchAt at h
  split at h
  · rename_i ba hba
    simp only [Option.some.injEq, Prod.mk.injEq] at h
    have hb : b = ba.1 := by tauto
    rw [hb]
    exact bitTail_mem (show bitTail _ = some (ba.1, ba.2) from hba)
  · exact absurd h (by simp)

theorem findBitMatch_mem {s : Str} {pre tp : Str} {b : Char} {addr : Str}
    (h : findBitMatch s = some (pre, tp, b, addr)) : b ∈ bitLetters := by
  induction s with
  | nil => simp [findBitMatch] at h
  | cons c rest ih =>
    rw [findBitMatch] at h
    split at h
    · exact bitMatchAt_mem (by rw [‹bitMatchAt (c :: rest) = _›]; exact h)
    · exact ih h



theorem bitIdxOf_eq {l : Str} {pre tp : Str} {b : Char} {addr : Str}
    (h : findBitMatch l = some (pre, tp, b, addr)) :
    bitIdxOf l = bitLetters.indexOf b := by
  simp [bitIdxOf, h]

theorem pfxOf_eq {l : Str} {pre tp : Str} {b : Char} {addr : Str}
    (h : findBitMatch l = some (pre, tp, b, addr)) : pfxOf l = pre := by
  simp [pfxOf, h]

theorem runKey_eq {l : Str} {pre tp : Str} {b : Char} {addr : Str}
    (h : findBitMatch l = some (pre, tp, b, addr)) : runKey l = some (addr, tp) := by
  simp [runKey, h]

theorem runKey_none {l : Str} (h : findBitMatch l = none) : runKey l = none := by
  simp [runKey, h]

theorem idx_lt {l : Str} {pre tp : Str} {b : Char} {addr : Str}
    (h : findBitMatch l = some (pre, tp, b, addr)) :
    bitLetters.indexOf b < bitLetters.length :=
  List.indexOf_lt_length.2 (findBitMatch_mem h)

theorem stepGroup_none_nobit {acc : List BGroup} {l : Str}
    (h : findBitMatch l = none) :
    stepGroup (acc, none) l = (acc ++ [BGroup.plain l], none) := by
  simp [stepGroup, h]

theorem stepGroup_some_nobit {acc : List BGroup} {g : RunData} {l : Str}
    (h : findBitMatch l = none) :
    stepGroup (acc, some g) l = (acc ++ [BGroup.run g, BGroup.plain l], none) := by
  simp [stepGroup, h]

theorem stepGroup_none_bit {acc : List BGroup} {l : Str} {pre tp : Str} {b : Char} {addr : Str}
    (h : findBitMatch l = some (pre, tp, b, addr)) :
    stepGroup (acc, none) l =
      (acc, some ⟨addr, tp, [bitLetters.indexOf b], [l], [pre]⟩) := by
  simp [stepGroup, h, Nat.not_le.2 (idx_lt h)]

theorem stepGroup_some_bit_same {acc : List BGroup} {g : RunData} {l : Str}
    {pre tp : Str} {b : Char} {addr : Str}
    (h : findBitMatch l = some (pre, tp, b, addr))
    (hk : g.addr = addr ∧ g.typePfx = tp) :
    stepGroup (acc, some g) l =
      (acc, some { g with
        bits := g.bits ++ [bitLetters.indexOf b],
        lines := g.lines ++ [l],
        pfxs := g.pfxs ++ [pre] }) := by
  simp [stepGroup, h, Nat.not_le.2 (idx_lt h), hk.1, hk.2]

theorem stepGroup_some_bit_diff {acc : List BGroup} {g : RunData} {l : Str}
    {pre tp : Str} {b : Char} {addr : Str}
    (h : findBitMatch l = some (pre, tp, b, addr))
    (hk : ¬ (g.addr = addr ∧ g.typePfx = tp)) :
    stepGroup (acc, some g) l =
      (acc ++ [BGroup.run g], some ⟨addr, tp, [bitLetters.indexOf b], [l], [pre]⟩) := by
  simp only [stepGroup, h, Nat.not_le.2 (idx_lt h), if_false, if_neg hk]



theorem chunkRuns_nil : chunkRuns [] = [] := by
  rw [chunkRuns]

theorem chunkRuns_cons_nobit {l : Str} {ls : List Str} (h : findBitMatch l = none) :
    chunkRuns (l :: ls) = BGroup.plain l :: chunkRuns ls := by
  rw [chunkRuns, h]

theorem chunkRuns_cons_bit {l : Str} {ls : List Str} {pre tp : Str} {b : Char} {addr : Str}
    (h : findBitMatch l = some (pre, tp, b, addr)) :
    chunkRuns (l :: ls) =
      BGroup.run (mkRun addr tp (l :: ls.takeWhile (sameRunKey (addr, tp)))) ::
        chunkRuns (ls.dropWhile (sameRunKey (addr, tp))) := by
  rw [chunkRuns, h]

theorem extendRun_cons_eq_mkRun {l : Str} {pre tp : Str} {b : Char} {addr : Str}
    (h : findBitMatch l = some (pre, tp, b, addr)) (tk : List Str) :
    extendRun ⟨addr, tp, [bitLetters.indexOf b], [l], [pre]⟩ tk =
      mkRun addr tp (l :: tk) := by
  simp [extendRun, mkRun, bitIdxOf_eq h, pfxOf_eq h]

theorem extendRun_extendOne {g : RunData} {l : Str} {pre tp : Str} {b : Char} {addr : Str}
    (h : findBitMatch l = some (pre, tp, b, addr)) (tk : List Str) :
    extendRun { g with
        bits := g.bits ++ [bitLetters.indexOf b],
        lines := g.lines ++ [l],
        pfxs := g.pfxs ++ [pre] } tk =
      extendRun g (l :: tk) := by
  simp [extendRun, bitIdxOf_eq h, pfxOf_eq h]



theorem chunk_fold :
    ∀ (n : Nat) (lines : List Str), lines.length ≤ n →
      (∀ acc, flushState (lines.foldl stepGroup (acc, none)) = acc ++ chunkRuns lines) ∧
      (∀ acc (g : RunData),
        flushState (lines.foldl stepGroup (acc, some g)) =
          acc ++ BGroup.run (extendRun g (lines.takeWhile (sameRunKey (g.addr, g.typePfx)))) ::
            chunkRuns (lines.dropWhile (sameRunKey (g.addr, g.typePfx)))) := by
  intro n
  induction n with
  | zero =>
    intro lines h
    have : lines = [] := List.eq_nil_of_length_eq_zero (Nat.le_zero.1 h)
    subst this
    exact ⟨fun acc => by simp [flushState, chunkRuns_nil],
           fun acc g => by simp [flushState, chunkRuns_nil, extendRun_nil]⟩
  | succ n ih =>
    intro lines hlen
    cases lines with
    | nil =>
      exact ⟨fun acc => by simp [flushState, chunkRuns_nil],
             fun acc g => by simp [flushState, chunkRuns_nil, extendRun_nil]⟩
    | cons l ls =>
      have hls : ls.length ≤ n := by
        simp only [List.length_cons] at hlen
        omega
      constructor
      · intro acc
        rw [List.foldl_cons]
        cases h : findBitMatch l with
        | none =>
          rw [stepGroup_none_nobit h, (ih ls hls).1, chunkRuns_cons_nobit h]
          simp
        | some cap =>
          obtain ⟨pre, tp, b, addr⟩ := cap
          rw [stepGroup_none_bit h, (ih ls hls).2, chunkRuns_cons_bit h]
          simp only [extendRun_cons_eq_mkRun h]
      · intro acc g
        rw [List.foldl_cons]
        cases h : findBitMatch l with
        | none =>
          have hkey : sameRunKey (g.addr, g.typePfx) l = false := by
            simp [sameRunKey, runKey_none h]
          rw [stepGroup_some_nobit h, (ih ls hls).1,
            List.takeWhile_cons_of_neg (by simp [hkey]),
            List.dropWhile_cons_of_neg (by simp [hkey]),
            chunkRuns_cons_nobit h, extendRun_nil]
          simp
        | some cap =>
          obtain ⟨pre, tp, b, addr⟩ := cap
          by_cases hk : g.addr = addr ∧ g.typePfx = tp
          · have hkey : sameRunKey (g.addr, g.typePfx) l = true := by
              simp [sameRunKey, runKey_eq h, hk.1, hk.2]
            rw [stepGroup_some_bit_same h hk, (ih ls hls).2,
              List.takeWhile_cons_of_pos (by simp [hkey]),
              List.dropWhile_cons_of_pos (by simp [hkey])]
            simp only [extendRun_extendOne h]
          · have hkey : sameRunKey (g.addr, g.typePfx) l = false := by
              simp only [sameRunKey, runKey_eq h]
              simp only [decide_eq_false_iff_not, Prod.mk.injEq]
              tauto
            rw [stepGroup_some_bit_diff h hk, (ih ls hls).2,
              List.takeWhile_cons_of_neg (by simp [hkey]),
              List.dropWhile_cons_of_neg (by simp [hkey]),
              chunkRuns_cons_bit h, extendRun_nil]
            simp only [extendRun_cons_eq_mkRun h]
            simp

theorem buildGroups_eq_chunkRuns (lines : List Str) :
    buildGroups lines = chunkRuns lines := by
  have h := (chunk_fold lines.length lines le_rfl).1 []
  simpa [buildGroups, flushState] using h



def claimRewriteRun (g : RunData) : List Str :=
  if 5 ≤ g.lines.length ∧ (lastPfx g = strv ("A:") ∨ lastPfx g = strv ("B:")) then
    let absent := (List.range 8).filter (fun b => ¬ g.bits.contains b)
    let aggregate := lastPfx g ++ g.typePfx ++ strv ("0xK") ++ g.addr
    let opposite := if lastPfx g = strv ("A:") then strv ("B:") else strv ("A:")
    let corrections := absent.map (fun b =>
      opposite ++ g.typePfx ++ strv ("0x") ++ [bitLetters.getD b ' '] ++ g.addr)
    if lastPfx g = strv ("A:") then aggregate :: corrections else corrections ++ [aggregate]
  else g.lines

def claimRewriteG : BGroup → List Str
  | BGroup.plain l => [l]
  | BGroup.run g => claimRewriteRun g

def claimQualifG : BGroup → Bool
  | BGroup.plain _ => false
  | BGroup.run g =>
    decide (5 ≤ g.lines.length ∧ (lastPfx g = strv ("A:") ∨ lastPfx g = strv ("B:")))

def claimCompress (lines : List Str) : List Str :=
  if ((chunkRuns lines).any claimQualifG) = true then
    ((chunkRuns lines).map claimRewriteG).flatten
  else lines

theorem chunkRuns_shape :
    ∀ (n : Nat) (lines : List Str), lines.length ≤ n →
      ∀ r : RunData, BGroup.run r ∈ chunkRuns lines →
        r.bits.length = r.lines.length := by
  intro n
  induction n with
  | zero =>
    intro lines h r hr
    have : lines = [] := List.eq_nil_of_length_eq_zero (Nat.le_zero.1 h)
    subst this
    simp [chunkRuns_nil] at hr
  | succ n ih =>
    intro lines hlen r hr
    cases lines with
    | nil => simp [chunkRuns_nil] at hr
    | cons l ls =>
      have hls : ls.length ≤ n := by
        simp only [List.length_cons] at hlen
        omega
      cases h : findBitMatch l with
      | none =>
        rw [chunkRuns_cons_nobit h] at hr
        rcases List.mem_cons.1 hr with h1 | h1
        · exact absurd h1 (by simp)
        · exact ih ls hls r h1
      | some cap =>
        obtain ⟨pre, tp, b, addr⟩ := cap
        rw [chunkRuns_cons_bit h] at hr
        rcases List.mem_cons.1 hr with h1 | h1
        · have : r = mkRun addr tp (l :: ls.takeWhile (sameRunKey (addr, tp))) := by
            simpa using h1
          subst this
          simp [mkRun]
        · have hd : (ls.dropWhile (sameRunKey (addr, tp))).length ≤ n :=
            le_trans (length_dropWhile_le' _ ls) hls
          exact ih _ hd r h1

theorem compressibleRun_eq_claim {r : RunData} (hshape : r.bits.length = r.lines.length) :
    compressibleRun r =
      decide (5 ≤ r.lines.length ∧ (lastPfx r = strv ("A:") ∨ lastPfx r = strv ("B:"))) := by
  simp only [compressibleRun, hshape]
  by_cases h1 : 5 ≤ r.lines.length <;>
    by_cases h2 : lastPfx r = strv ("A:") <;>
      by_cases h3 : lastPfx r = strv ("B:") <;>
        simp [h1, h2, h3]

theorem groupOut_eq_claim {g : BGroup}
    (hshape : ∀ r : RunData, g = BGroup.run r → r.bits.length = r.lines.length) :
    groupOut g = claimRewriteG g := by
  cases g with
  | plain l => rfl
  | run r =>
    have hs := hshape r rfl
    rw [groupOut, claimRewriteG, claimRewriteRun, compressibleRun_eq_claim hs]
    by_cases hq : 5 ≤ r.lines.length ∧ (lastPfx r = strv ("A:") ∨ lastPfx r = strv ("B:"))
    · rw [if_pos (by simpa using hq), if_pos hq]
      have e1 : ¬ (strv ("A:") = strv ("B:")) := by decide
      have e2 : ¬ (strv ("B:") = strv ("A:")) := by decide
      rcases hq.2 with hA | hB
      · simp [hA, e1, e2]
      · simp [hB, e1, e2]
    · rw [if_neg (by simpa using hq), if_neg hq]

theorem any_congr_mem {α : Type} {p q : α → Bool} :
    ∀ {l : List α}, (∀ x ∈ l, p x = q x) → l.any p = l.any q := by
  intro l
  induction l with
  | nil => intro _; rfl
  | cons a t ih =>
    intro h
    simp only [List.any_cons, h a (by simp), ih (fun x hx => h x (by simp [hx]))]

theorem groupIsCompressible_eq_claim {g : BGroup}
    (hshape : ∀ r : RunData, g = BGroup.run r → r.bits.length = r.lines.length) :
    groupIsCompressible g = claimQualifG g := by
  cases g with
  | plain l => rfl
  | run r =>
    rw [groupIsCompressible, claimQualifG, compressibleRun_eq_claim (hshape r rfl)]

theorem compressBits_eq_claimCompress (lines : List Str) :
    compressBits lines = claimCompress lines := by
  unfold compressBits claimCompress
  rw [buildGroups_eq_chunkRuns]
  have hsh : ∀ g ∈ chunkRuns lines, ∀ r : RunData, g = BGroup.run r →
      r.bits.length = r.lines.length := by
    intro g hg r hgr
    subst hgr
    exact chunkRuns_shape lines.length lines le_rfl r hg
  rw [any_congr_mem (fun g hg => groupIsCompressible_eq_claim (hsh g hg)),
    List.map_congr_left (fun g hg => groupOut_eq_claim (hsh g hg))]


-- ===========================================================================
-- Example inputs shared by the claim theorems
-- ===========================================================================

/-- A single-line And-Next group condition with a Mem left operand. -/
def exCondN : Condition :=
  { lineId := 1, groupId := 1, flag := strv ("N:"), type := strv ("Mem"),
    size := strv ("16-bit"), memory := strv ("0x10"), cmp := strv ("="),
    compareType := strv ("Value"), compareSize := strv ("8-bit"),
    value := strv ("5"), hits := strv ("0"), bytes := strv (""),
    expanded := false, expandedLines := [] }

/-- An Add-Source group condition with a Mem 16-bit left operand at
`0x1234`. -/
def exCondA : Condition :=
  { lineId := 1, groupId := 1, flag := strv ("A:"), type := strv ("Mem"),
    size := strv ("16-bit"), memory := strv ("0x1234"), cmp := strv (""),
    compareType := strv ("Value"), compareSize := strv ("8-bit"),
    value := strv ("0"), hits := strv (""), bytes := strv (""),
    expanded := false, expandedLines := [] }

/-- Five copies of the same single-bit Add-Source line: a qualifying run
whose bit index repeats. -/
def dupBitRun : List Str := List.replicate 5 (strv ("A:0xM1234"))

/-- C2: the claim says `applyAndOrNextCheck` swaps the `O:`/`N:` flag,
swaps the Delta/Mem modifier and inverts the comparator on every
non-final line.  The code's own comments state the same intent, but the
sequential global replaces cancel: on the Mem line `O:0x10=5` the
and-next variant comes out as `N:0x10=5` — the modifier is not swapped to
Delta and `=` is not inverted to `!=` (only `<=` and `>=` survive the
chain, as `>` and `<`).  This theorem evaluates the code at that failing
input. -/
theorem c2_and_or_next_chains_cancel :
    applyAndOrNextCheck exCondN [strv ("O:0x10=5"), strv ("0x20=3")] =
      [strv ("N:0x10=5"), strv ("0x20=3"), strv ("O:0x10=5"), strv ("0x20=3")] ∧
    ¬ (strv ("N:0x10=5") = strv ("N:d0x10!=5")) ∧
    invertCmpChain (strv ("a=b!=c>d<e<=f>=g")) = strv ("a=b!=c>d<e>f<g") := by
  decide

/-- C3: the round-trip law fails because `convertBitfieldConditionToText`
never emits the `{recall}` literal for a left operand of type Recall
(the right side is handled).  The parser accepts `{recall}=5` and yields
a Recall-typed condition, its serialization is `=5`, and re-parsing `=5`
fails (`parseLineToCondition` returns null), so
`serialize(parse(serialize(c)))` is not defined, let alone equal to
`serialize(c)`.  This theorem evaluates the code at that failing input. -/
theorem c3_left_recall_not_serialized :
    (parseLineToCondition (strv ("{recall}=5"))).isSome = true ∧
    (parseLineToCondition (strv ("{recall}=5"))).map (fun c => c.type) =
      some (strv ("Recall")) ∧
    (parseLineToCondition (strv ("{recall}=5"))).map convertBitfieldConditionToText =
      some (strv ("=5")) ∧
    (parseLineToCondition (strv ("{recall}=5"))).map
      (fun c => parseLineToCondition (convertBitfieldConditionToText c)) = some none := by
  decide

/-- C4: `compressBits` rewrites a maximal run of consecutive single-bit
comparison lines on one address with one type modifier exactly when the
run has at least 5 members and its last line carries the `A:` or `B:`
flag; the rewrite is one BitCount aggregate line (last line's flag and
modifier) plus one corrective line per absent bit with the opposite flag,
aggregate before corrections for an `A:` run and after them for a `B:`
run; all other lines pass through, and the whole pass is the identity
when no run qualifies.  `claimCompress` states exactly this description
over maximal runs, and `compressBits` equals it on every input; in
particular 8 single-bit Add-Source comparisons of one address compress to
exactly one BitCount line and no corrections. -/
theorem c4_bit_compression_structure :
    (∀ lines : List Str, compressBits lines = claimCompress lines) ∧
    compressBits
      [strv ("A:0xM12"), strv ("A:0xN12"), strv ("A:0xO12"), strv ("A:0xP12"),
       strv ("A:0xQ12"), strv ("A:0xR12"), strv ("A:0xS12"), strv ("A:0xT12")] =
      [strv ("A:0xK12")] := by
  exact ⟨compressBits_eq_claimCompress, by decide⟩

/-- C5 counterexample: `compressBits` is not idempotent.  Five copies of
`A:0xM1234` form a qualifying run whose bit index repeats, so the first
pass emits a BitCount line plus seven `B:` corrective lines, and those
seven corrective lines form a new qualifying run that the second pass
compresses again. -/
theorem c5_cex_duplicate_bits :
    ¬ (compressBits (compressBits dupBitRun) = compressBits dupBitRun) := by
  decide

/-- C5 (amended): `compressBits` is the identity on every input with no
compressible run (at least 5 bit lines whose last line carries `A:` or
`B:`) — in particular on every input with no run of 5 or more
same-address single-bit comparisons — and on such inputs it is
idempotent.  Unrestricted idempotence fails (see the counterexample). -/
theorem c5_identity_when_no_qualifying_run :
    ∀ lines : List Str, hasCompressibleGroups lines = false →
      compressBits lines = lines ∧
      compressBits (compressBits lines) = compressBits lines := by
  intro lines h
  have h' : ((buildGroups lines).any groupIsCompressible) = false := h
  have hid : compressBits lines = lines := by
    unfold compressBits
    rw [if_neg (by rw [h']; simp)]
  exact ⟨hid, by rw [hid, hid]⟩

/-- C5 witness: a four-line non-qualifying run is returned unchanged and
re-applying the pass changes nothing. -/
theorem c5_identity_witness :
    hasCompressibleGroups
        [strv ("A:0xM12"), strv ("A:0xN12"), strv ("A:0xO12"), strv ("A:0xP12")] = false ∧
    compressBits [strv ("A:0xM12"), strv ("A:0xN12"), strv ("A:0xO12"), strv ("A:0xP12")] =
      [strv ("A:0xM12"), strv ("A:0xN12"), strv ("A:0xO12"), strv ("A:0xP12")] ∧
    compressBits (compressBits
        [strv ("A:0xM12"), strv ("A:0xN12"), strv ("A:0xO12"), strv ("A:0xP12")]) =
      compressBits [strv ("A:0xM12"), strv ("A:0xN12"), strv ("A:0xO12"), strv ("A:0xP12")] := by
  refine ⟨by decide, ?_, ?_⟩
  · exact (c5_identity_when_no_qualifying_run _ (by decide)).1
  · exact (c5_identity_when_no_qualifying_run _ (by decide)).2

/-- C6: for an Add-Source group condition with one Mem-type 16-bit line at
`0x1234`, `applyDeltaMemCheck` returns the delta copy, a `0=0` sentinel,
the mem copy and a second sentinel; and for every input in which the pass
applies, a line with the Add-Address flag `I:` appears byte-for-byte
unchanged at its position in the delta half and in the mem half. -/
theorem c6_delta_mem_example_and_add_address_frame :
    applyDeltaMemCheck exCondA [strv ("A:0x1234")] =
      [strv ("A:d0x1234"), strv ("0=0"), strv ("A:0x1234"), strv ("0=0")] ∧
    ∀ (c : Condition) (lines : List Str) (i : Nat) (l : Str),
      (c.type = strv ("Delta") ∨ c.type = strv ("Mem") ∨
       c.compareType = strv ("Delta") ∨ c.compareType = strv ("Mem")) →
      lines[i]? = some l → List.isPrefixOf (strv ("I:")) l = true →
      (applyDeltaMemCheck c lines)[i]? = some l ∧
      (applyDeltaMemCheck c lines)[lines.length +
        (if c.flag = strv ("A:") ∨ c.flag = strv ("B:") then 1 else 0) + i]? = some l := by
  refine ⟨by decide, ?_⟩
  intro c lines i l hdm hget hpre
  have hL : ¬ (¬ (c.type = strv ("Delta") ∨ c.type = strv ("Mem")) ∧
      ¬ (c.compareType = strv ("Delta") ∨ c.compareType = strv ("Mem"))) := by
    tauto
  have hi : i < lines.length := (List.getElem?_eq_some.1 hget).1
  unfold applyDeltaMemCheck
  simp only [if_neg hL]
  by_cases hf : c.flag = strv ("A:") ∨ c.flag = strv ("B:")
  · simp only [if_pos hf]
    refine ⟨?_, ?_⟩
    · rw [List.getElem?_append,
        if_pos (by simp only [List.length_append, List.length_map, List.length_cons,
          List.length_nil]; omega),
        List.getElem?_append, if_pos (by simpa using hi),
        List.getElem?_map, hget]
      simp only [Option.map_some']
      rw [if_pos hpre]
    · rw [List.getElem?_append,
        if_neg (by simp only [List.length_append, List.length_map, List.length_cons,
          List.length_nil]; omega)]
      have harith : lines.length + 1 + i -
          ((List.map (fun line => if List.isPrefixOf (strv ("I:")) line then line
            else deltaConvLine line) lines) ++ [strv ("0=0")]).length = i := by
        simp only [List.length_append, List.length_map, List.length_cons, List.length_nil]
        omega
      rw [harith, List.getElem?_append, if_pos (by simpa using hi), List.getElem?_map, hget]
      simp only [Option.map_some']
      rw [if_pos hpre]
  · simp only [if_neg hf]
    refine ⟨?_, ?_⟩
    · rw [List.getElem?_append, if_pos (by simpa using hi), List.getElem?_map, hget]
      simp only [Option.map_some']
      rw [if_pos hpre]
    · rw [List.getElem?_append,
        if_neg (by simp only [List.length_append, List.length_map, List.length_cons,
          List.length_nil]; omega)]
      have harith : lines.length + 0 + i -
          (List.map (fun line => if List.isPrefixOf (strv ("I:")) line then line
            else deltaConvLine line) lines).length = i := by
        simp only [List.length_map]
        omega
      rw [harith, List.getElem?_map, hget]
      simp only [Option.map_some']
      rw [if_pos hpre]

/-- C6 witness: the frame property applied at a concrete input: with an
Add-Source Mem condition and lines `[I:0x5, A:0x1234]`, the `I:` line
reappears unchanged at position 0 of the delta half and at position 3
(after the sentinel offset) in the mem half. -/
theorem c6_delta_mem_witness :
    (applyDeltaMemCheck exCondA [strv ("I:0x5"), strv ("A:0x1234")])[0]? =
      some (strv ("I:0x5")) ∧
    (applyDeltaMemCheck exCondA [strv ("I:0x5"), strv ("A:0x1234")])[3]? =
      some (strv ("I:0x5")) := by
  have h := c6_delta_mem_example_and_add_address_frame.2 exCondA
    [strv ("I:0x5"), strv ("A:0x1234")] 0 (strv ("I:0x5"))
    (by decide) (by decide) (by decide)
  refine ⟨h.1, ?_⟩
  have h2 := h.2
  rw [if_pos (show exCondA.flag = strv ("A:") ∨ exCondA.flag = strv ("B:") from by decide)] at h2
  simpa using h2

-- ===========================================================================
-- groups.js (recalculateLineAndGroupIds) and bitfield-operations.js
-- (CRUD operations), with the claims C8 and C10.
-- ===========================================================================

/-- The `reduce((max, line) => line.lineId > max.lineId ? line : max)` idiom. -/
def reduceMaxLineId : List Condition → Option Condition
  | [] => none
  | h :: t => some (t.foldl (fun mx l => if mx.lineId < l.lineId then l else mx) h)

/-- `getGroupLines(bitfieldConditions, groupId)` from `groups.js`. -/
def getGroupLines (conds : List Condition) (groupId : Nat) : List Condition :=
  conds.filter (fun c => c.groupId == groupId)

def phase1 (conds : List Condition) : List Condition :=
  conds.enum.map (fun p =>
    { p.2 with
      lineId := p.1 + 1,
      groupId := if p.2.groupId = p.2.lineId then p.1 + 1 else p.2.groupId })

def phase2Step (st : List Condition × List Nat) (i : Nat) : List Condition × List Nat :=
  match st.1[i]? with
  | none => st
  | some c =>
    if c.groupId ∈ st.2 ∨ c.groupId = c.lineId then st
    else
      if 1 < (st.1.filter (fun m => m.groupId == c.groupId)).length then
        match reduceMaxLineId (st.1.filter (fun m => m.groupId == c.groupId)) with
        | some leader =>
          (st.1.map (fun m =>
            if m.groupId == c.groupId then { m with groupId := leader.lineId } else m),
           st.2 ++ [c.groupId])
        | none => st
      else st

def recalculateLineAndGroupIds (conds : List Condition) : List Condition :=
  ((List.range (phase1 conds).length).foldl phase2Step (phase1 conds, [])).1

def createDefaultCondition : Condition :=
  { lineId := 0, groupId := 0, flag := strv (""), type := strv ("Mem"),
    size := strv ("8-bit"), memory := strv ("0x0"), cmp := strv ("="),
    compareType := strv ("Value"), compareSize := strv ("8-bit"),
    value := strv ("0"), hits := strv ("0"), bytes := strv (""),
    expanded := false, expandedLines := [] }

def addConditionAtIndex (conds : List Condition) (index : Nat) : List Condition :=
  recalculateLineAndGroupIds
    (conds.take (index + 1) ++ [createDefaultCondition] ++ conds.drop (index + 1))

def copyCondition (conds : List Condition) (lineId : Nat) : List Condition :=
  match conds.find? (fun c => c.lineId == lineId) with
  | none => conds
  | some condition =>
    let groupLines := getGroupLines conds condition.groupId
    match reduceMaxLineId groupLines with
    | none => conds
    | some lastGroupLine =>
      let insertIndex :=
        match conds.findIdx? (fun c => c.lineId == lastGroupLine.lineId) with
        | some i => i + 1
        | none => 0
      let copied := groupLines.map (fun g =>
        { g with lineId := 0, groupId := 0, expanded := false, expandedLines := [] })
      recalculateLineAndGroupIds (conds.take insertIndex ++ copied ++ conds.drop insertIndex)

def removeBitfieldCondition {α : Type} (conds : List Condition)
    (expansions : List (Nat × α)) (colors : List (Nat × Nat)) (lineId : Nat) :
    List Condition × List (Nat × α) × List (Nat × Nat) :=
  match conds.find? (fun c => c.lineId == lineId) with
  | none => (conds, expansions, colors)
  | some condition =>
    let groupLines := getGroupLines conds condition.groupId
    let lineIds := groupLines.map (fun c => c.lineId)
    let filtered := conds.filter (fun c => !(lineIds.contains c.lineId))
    (recalculateLineAndGroupIds filtered,
     expansions.filter (fun p => !(lineIds.contains p.1)),
     colors.filter (fun p => !(p.1 == condition.groupId)))

def mkCond (lid gid : Nat) (mem : String) : Condition :=
  { createDefaultCondition with lineId := lid, groupId := gid, memory := strv (mem) }

def c8Conds : List Condition :=
  [mkCond 1 2 ("0x1"), mkCond 2 2 ("0x2"), mkCond 3 3 ("0x3"),
   mkCond 4 5 ("0x4"), mkCond 5 5 ("0x5")]




/-- All Condition fields except lineId and groupId. -/
def stripIds (c : Condition) :
    Str × Str × Str × Str × Str × Str × Str × Str × Str × Str × Bool × List Str :=
  (c.flag, c.type, c.size, c.memory, c.cmp, c.compareType, c.compareSize,
   c.value, c.hits, c.bytes, c.expanded, c.expandedLines)

theorem phase1_strip (l : List Condition) :
    (phase1 l).map stripIds = l.map stripIds := by
  unfold phase1
  rw [List.map_map]
  conv_rhs => rw [← List.enum_map_snd l, List.map_map]
  apply List.map_congr_left
  intro p _
  simp [stripIds, Function.comp]

theorem phase2Step_strip (st : List Condition × List Nat) (i : Nat) :
    ((phase2Step st i).1).map stripIds = st.1.map stripIds := by
  unfold phase2Step
  split
  · rfl
  · rename_i c heq
    split
    · rfl
    · split
      · split
        · rw [List.map_map]
          apply List.map_congr_left
          intro m _
          by_cases h : (m.groupId == c.groupId) = true
          · simp [h, stripIds, Function.comp]
          · simp [h, Function.comp]
        · rfl
      · rfl

theorem foldl_phase2_strip (idxs : List Nat) :
    ∀ st : List Condition × List Nat,
      (((idxs.foldl phase2Step st).1).map stripIds) = st.1.map stripIds := by
  induction idxs with
  | nil => intro st; rfl
  | cons i t ih =>
    intro st
    rw [List.foldl_cons, ih, phase2Step_strip]

theorem recalc_strip (l : List Condition) :
    (recalculateLineAndGroupIds l).map stripIds = l.map stripIds := by
  unfold recalculateLineAndGroupIds
  rw [foldl_phase2_strip, phase1_strip]

theorem lookup_filter_mem {α : Type} (id : Nat) (ids : List Nat)
    (h : id ∈ ids) :
    ∀ l : List (Nat × α),
      List.lookup id (l.filter (fun p => !(ids.contains p.1))) = none := by
  intro l
  induction l with
  | nil => rfl
  | cons p t ih =>
    rw [List.filter_cons]
    by_cases hc : p.1 ∈ ids
    · rw [show (!(ids.contains p.1)) = false by simpa using hc]
      simpa using ih
    · rw [show (!(ids.contains p.1)) = true by simpa using hc]
      have hne : ¬ p.1 = id := fun he => hc (he ▸ h)
      have hb : (id == p.1) = false := by simp; omega
      simp only [if_pos rfl, List.lookup, hb]
      exact ih

theorem lookup_filter_not_mem {α : Type} (id : Nat) (ids : List Nat)
    (h : ¬ id ∈ ids) :
    ∀ l : List (Nat × α),
      List.lookup id (l.filter (fun p => !(ids.contains p.1))) = List.lookup id l := by
  intro l
  induction l with
  | nil => rfl
  | cons p t ih =>
    rw [List.filter_cons]
    by_cases hc : p.1 ∈ ids
    · rw [show (!(ids.contains p.1)) = false by simpa using hc]
      have hne : ¬ p.1 = id := fun he => h (he ▸ hc)
      have hb : (id == p.1) = false := by simp; omega
      simp only [List.lookup, hb]
      exact ih
    · rw [show (!(ids.contains p.1)) = true by simpa using hc]
      by_cases he : p.1 = id
      · have hb : (id == p.1) = true := by simp [he]
        simp only [if_pos rfl, List.lookup, hb]
      · have hb : (id == p.1) = false := by simp; omega
        simp only [if_pos rfl, List.lookup, hb]
        exact ih



theorem filter_lineIds_eq_filter_groupId (conds : List Condition) (tgt : Condition)
    (hnodup : (conds.map (fun c => c.lineId)).Nodup) :
    conds.filter
        (fun c => !(((getGroupLines conds tgt.groupId).map (fun c => c.lineId)).contains c.lineId)) =
      conds.filter (fun c => !(c.groupId == tgt.groupId)) := by
  apply List.filter_congr
  intro c hc
  by_cases hg : c.groupId = tgt.groupId
  · have hmem : c.lineId ∈ (getGroupLines conds tgt.groupId).map (fun c => c.lineId) := by
      apply List.mem_map.2
      exact ⟨c, List.mem_filter.2 ⟨hc, by simp [hg]⟩, rfl⟩
    simp [hmem, hg]
  · have hnm : ¬ c.lineId ∈ (getGroupLines conds tgt.groupId).map (fun c => c.lineId) := by
      intro hmem
      obtain ⟨m, hm, hml⟩ := List.mem_map.1 hmem
      have hmc : m ∈ conds := (List.mem_filter.1 hm).1
      have : m = c := List.inj_on_of_nodup_map hnodup hmc hc hml
      subst this
      have := (List.mem_filter.1 hm).2
      simp at this
      exact hg this
    simp [hnm, hg]

/-- C10: `removeBitfieldCondition` removes exactly the conditions sharing
the addressed condition's `groupId` (and deletes their expansion
configurations), and keeps every other condition, in order, with all
fields unchanged except the renumbered `lineId`/`groupId`. -/
theorem c10_remove_frame {α : Type} (conds : List Condition)
    (expansions : List (Nat × α)) (colors : List (Nat × Nat))
    (lineId : Nat) (tgt : Condition)
    (hfind : conds.find? (fun c => c.lineId == lineId) = some tgt)
    (hnodup : (conds.map (fun c => c.lineId)).Nodup) :
    (removeBitfieldCondition conds expansions colors lineId).1 =
      recalculateLineAndGroupIds (conds.filter (fun c => !(c.groupId == tgt.groupId))) ∧
    ((removeBitfieldCondition conds expansions colors lineId).1).map stripIds =
      (conds.filter (fun c => !(c.groupId == tgt.groupId))).map stripIds ∧
    (∀ id, id ∈ (getGroupLines conds tgt.groupId).map (fun c => c.lineId) →
      List.lookup id (removeBitfieldCondition conds expansions colors lineId).2.1 = none) ∧
    (∀ id, ¬ id ∈ (getGroupLines conds tgt.groupId).map (fun c => c.lineId) →
      List.lookup id (removeBitfieldCondition conds expansions colors lineId).2.1 =
        List.lookup id expansions) := by
  unfold removeBitfieldCondition
  rw [hfind]
  dsimp only
  refine ⟨?_, ?_, ?_, ?_⟩
  · rw [filter_lineIds_eq_filter_groupId conds tgt hnodup]
  · rw [filter_lineIds_eq_filter_groupId conds tgt hnodup, recalc_strip]
  · intro id hid
    exact lookup_filter_mem id _ hid expansions
  · intro id hid
    exact lookup_filter_not_mem id _ hid expansions



/-- C8: a single `copyCondition` on a well-formed list (dense lineIds 1..5,
groups {1,2} with groupId 2, singleton {3}, and {4,5} with groupId 5)
renumbers into a state where the pre-existing singleton condition
(memory `0x3`) ends with `groupId 6` but `lineId 5`: it is absorbed into
a group with the old member of `{4,5}` while the old leader is expelled.
The claim's invariant that a condition that was a singleton keeps
`groupId` equal to its own `lineId` is violated. -/
theorem c8_copy_breaks_singleton :
    ((copyCondition c8Conds 1).map (fun c => (c.memory, c.lineId, c.groupId))) =
      [(strv ("0x1"), 1, 2), (strv ("0x2"), 2, 2), (strv ("0x1"), 3, 3),
       (strv ("0x2"), 4, 4), (strv ("0x3"), 5, 6), (strv ("0x4"), 6, 6),
       (strv ("0x5"), 7, 7)] ∧
    ((copyCondition c8Conds 1)[4]?).map (fun c => (c.memory, c.lineId, c.groupId)) =
      some (strv ("0x3"), 5, 6) ∧
    ¬ (6 = 5) := by
  decide

def c10Conds : List Condition :=
  [mkCond 1 2 ("0x1"), mkCond 2 2 ("0x2"), mkCond 3 3 ("0x3")]

def c10Exps : List (Nat × Nat) := [(2, 7), (3, 9)]

/-- C10 witness: removing lineId 1 of `c10Conds` (group {1,2}) deletes the
expansion entry of lineId 2, keeps lineId 3's entry, and the surviving
condition keeps its non-id fields. -/
theorem c10_remove_frame_witness :
    List.lookup 2 (removeBitfieldCondition c10Conds c10Exps [] 1).2.1 = none ∧
    List.lookup 3 (removeBitfieldCondition c10Conds c10Exps [] 1).2.1 = some 9 ∧
    ((removeBitfieldCondition c10Conds c10Exps [] 1).1).map stripIds =
      (c10Conds.filter (fun c => !(c.groupId == (mkCond 1 2 ("0x1")).groupId))).map stripIds := by
  have h := c10_remove_frame c10Conds c10Exps [] 1 (mkCond 1 2 ("0x1")) (by decide) (by decide)
  refine ⟨?_, ?_, h.2.1⟩
  · exact h.2.2.1 2 (by decide)
  · rw [h.2.2.2 3 (by decide)]
    decide


-- ===========================================================================
-- expansion-system.js: confirmExpansion, with claims C7 and C9.
-- ===========================================================================

/-- A per-line expansion configuration (`lineConfigs` entries built by
`expandCondition` in `main.js`).  `customData` holds the manual picker
state; only its null-ness is inspected by `confirmExpansion`, which
passes the whole config to the injected generator functions. -/
structure LineConfig where
  lineId : Nat
  activeTab : Str
  arithmeticIncrement : Str
  customFieldSize : Str
  customized : Bool
  customData : Option Unit
deriving DecidableEq, Repr

/-- An expansion-session record (`bitfieldExpansions[lineId]`).
`generatedGroups` is stored as text in the source and read back through
`parseInt(...) || 1`; it is modelled as the parsed number, with `0`
standing for NaN or zero. -/
structure Expansion where
  generatedGroups : Nat
  deltaCheck : Bool
  lineConfigs : List LineConfig
deriving DecidableEq, Repr

/-- The per-line body of the expansion loop in `confirmExpansion`:
custom lines when customized, one arithmetic line when a non-blank
increment is set, otherwise the unmodified serialization.  A missing
line config (out-of-range index) would crash the source
(`undefined.customized`) and is modelled as `none`. -/
def perLineOut (genArith : Condition → LineConfig → Nat → Str)
    (genCustom : Condition → LineConfig → Nat → List Str)
    (expansion : Expansion) (groupIdx lineIdx : Nat) (line : Condition) :
    Option (List Str) :=
  match expansion.lineConfigs[lineIdx]? with
  | none => none
  | some cfg =>
    if cfg.customized ∧ cfg.customData.isSome then some (genCustom line cfg groupIdx)
    else if ¬ trimL cfg.arithmeticIncrement = [] then some [genArith line cfg groupIdx]
    else some [convertBitfieldConditionToText line]

/-- The inner `groupLines.forEach` of the expansion loop. -/
def linesForRep (genArith : Condition → LineConfig → Nat → Str)
    (genCustom : Condition → LineConfig → Nat → List Str)
    (expansion : Expansion) (groupIdx : Nat) :
    Nat → List Condition → Option (List Str)
  | _, [] => some []
  | lineIdx, l :: ls => do
    let a ← perLineOut genArith genCustom expansion groupIdx lineIdx l
    let b ← linesForRep genArith genCustom expansion groupIdx (lineIdx + 1) ls
    pure (a ++ b)

/-- The outer `for groupIdx in 0..generatedGroups-1` of the expansion
loop: the first argument counts the repetitions still to do. -/
def allReps (genArith : Condition → LineConfig → Nat → Str)
    (genCustom : Condition → LineConfig → Nat → List Str)
    (expansion : Expansion) (groupLines : List Condition) :
    Nat → Nat → Option (List Str)
  | 0, _ => some []
  | n + 1, groupIdx => do
    let a ← linesForRep genArith genCustom expansion groupIdx 0 groupLines
    let b ← allReps genArith genCustom expansion groupLines n (groupIdx + 1)
    pure (a ++ b)

/-- The line-generation part of `confirmExpansion` in
`expansion-system.js`: the expansion loop followed by the optional
Delta/Mem or And/Or-Next post-pass (which receives the group's last
member). -/
def confirmExpansionLines (genArith : Condition → LineConfig → Nat → Str)
    (genCustom : Condition → LineConfig → Nat → List Str)
    (groupLines : List Condition) (expansion : Expansion) : Option (List Str) :=
  match allReps genArith genCustom expansion groupLines
      (if expansion.generatedGroups = 0 then 1 else expansion.generatedGroups) 0 with
  | none => none
  | some base =>
    if expansion.deltaCheck then
      if groupLines.any (fun l =>
          l.type == strv ("Delta") || l.type == strv ("Mem") ||
          l.compareType == strv ("Delta") || l.compareType == strv ("Mem")) then
        if groupLines.any (fun l => l.flag == strv ("A:") || l.flag == strv ("B:")) then
          match groupLines.getLast? with
          | some last => some (applyDeltaMemCheck last base)
          | none => none
        else if groupLines.any (fun l => l.flag == strv ("N:") || l.flag == strv ("O:")) then
          match groupLines.getLast? with
          | some last => some (applyAndOrNextCheck last base)
          | none => none
        else some base
      else some base
    else some base

/-- `confirmExpansion` from `expansion-system.js`: generate the expanded
lines for the group of the addressed condition, then mark every condition
of that group as expanded with those lines and drop the expansion record.
A missing expansion or condition is a logged no-op in the source. -/
def confirmExpansion (genArith : Condition → LineConfig → Nat → Str)
    (genCustom : Condition → LineConfig → Nat → List Str)
    (expansions : List (Nat × Expansion)) (conds : List Condition)
    (expansionId : Nat) : Option (List Condition × List (Nat × Expansion)) :=
  match List.lookup expansionId expansions with
  | none => some (conds, expansions)
  | some expansion =>
    match conds.find? (fun c => c.lineId == expansionId) with
    | none => some (conds, expansions)
    | some condition =>
      match confirmExpansionLines genArith genCustom
          (getGroupLines conds condition.groupId) expansion with
      | none => none
      | some allLines =>
        some (conds.map (fun c =>
            if c.groupId == condition.groupId then
              { c with expanded := true, expandedLines := allLines }
            else c),
          expansions.filter (fun p => !(p.1 == expansionId)))

def defaultLineConfig : LineConfig :=
  { lineId := 1, activeTab := strv ("left"), arithmeticIncrement := strv (""),
    customFieldSize := strv ("0x50"), customized := false, customData := none }

def genArith0 : Condition → LineConfig → Nat → Str := fun _ _ _ => []

def genCustom0 : Condition → LineConfig → Nat → List Str := fun _ _ _ => []

theorem linesForRep_const (genArith : Condition → LineConfig → Nat → Str)
    (genCustom : Condition → LineConfig → Nat → List Str)
    (expansion : Expansion)
    (hcfg : ∀ cfg ∈ expansion.lineConfigs,
      cfg.customized = false ∧ trimL cfg.arithmeticIncrement = []) (gi : Nat) :
    ∀ (ls : List Condition) (startIdx : Nat),
      startIdx + ls.length ≤ expansion.lineConfigs.length →
      linesForRep genArith genCustom expansion gi startIdx ls =
        some (ls.map convertBitfieldConditionToText) := by
  intro ls
  induction ls with
  | nil => intro startIdx _; rfl
  | cons l t ih =>
    intro startIdx hle
    have hidx : startIdx < expansion.lineConfigs.length := by
      simp only [List.length_cons] at hle
      omega
    obtain ⟨cfg, hcfgeq⟩ : ∃ cfg, expansion.lineConfigs[startIdx]? = some cfg :=
      ⟨_, List.getElem?_eq_getElem hidx⟩
    have hmem : cfg ∈ expansion.lineConfigs := by
      have := List.getElem?_eq_some.1 hcfgeq
      obtain ⟨hlt, helem⟩ := this
      rw [← helem]
      exact List.getElem_mem hlt
    obtain ⟨hnc, hblank⟩ := hcfg cfg hmem
    rw [linesForRep]
    unfold perLineOut
    rw [hcfgeq]
    dsimp only
    rw [if_neg (by simp [hnc]), if_neg (by simp [hblank])]
    rw [ih (startIdx + 1) (by simp only [List.length_cons] at hle; omega)]
    rfl

theorem allReps_const (genArith : Condition → LineConfig → Nat → Str)
    (genCustom : Condition → LineConfig → Nat → List Str)
    (expansion : Expansion) (groupLines : List Condition)
    (hcfg : ∀ cfg ∈ expansion.lineConfigs,
      cfg.customized = false ∧ trimL cfg.arithmeticIncrement = [])
    (hlen : groupLines.length ≤ expansion.lineConfigs.length) :
    ∀ (n gi : Nat),
      allReps genArith genCustom expansion groupLines n gi =
        some (List.flatten
          (List.replicate n (groupLines.map convertBitfieldConditionToText))) := by
  intro n
  induction n with
  | zero => intro gi; rfl
  | succ n ih =>
    intro gi
    rw [allReps]
    rw [linesForRep_const genArith genCustom expansion hcfg gi groupLines 0 (by omega)]
    rw [ih (gi + 1)]
    rfl

theorem length_flatten_replicate (n : Nat) (X : List Str) :
    (List.flatten (List.replicate n X)).length = n * X.length := by
  induction n with
  | zero => simp
  | succ n ih =>
    rw [List.replicate_succ, List.flatten_cons, List.length_append, ih]
    ring

/-- C7 counterexample: with the Delta/Mem check enabled (the expansion
UI's default), a one-condition Add-Source Mem group expanded once
produces 4 lines, not 1*1 = 1: the post-pass appends the delta copy, two
sentinels and the mem copy. -/
theorem c7_cex_delta_check :
    (confirmExpansionLines genArith0 genCustom0 [exCondA]
        { generatedGroups := 1, deltaCheck := true,
          lineConfigs := [defaultLineConfig] }).map List.length = some 4 ∧
    ¬ ((4 : Nat) = 1 * 1) := by
  decide

/-- C7 (amended): when the Delta/Mem check is disabled and no group member
has a custom selection or a non-blank arithmetic increment, confirming an
expansion with repetition count k >= 1 yields exactly the k-fold
repetition, in repetition-major order, of the ordinary serializations of
the group members — k * m lines in total. -/
theorem c7_plain_expansion_count (genArith : Condition → LineConfig → Nat → Str)
    (genCustom : Condition → LineConfig → Nat → List Str)
    (groupLines : List Condition) (expansion : Expansion)
    (hdc : expansion.deltaCheck = false)
    (hk : 1 ≤ expansion.generatedGroups)
    (hlen : groupLines.length ≤ expansion.lineConfigs.length)
    (hcfg : ∀ cfg ∈ expansion.lineConfigs,
      cfg.customized = false ∧ trimL cfg.arithmeticIncrement = []) :
    confirmExpansionLines genArith genCustom groupLines expansion =
      some (List.flatten (List.replicate expansion.generatedGroups
        (groupLines.map convertBitfieldConditionToText))) ∧
    (confirmExpansionLines genArith genCustom groupLines expansion).map List.length =
      some (expansion.generatedGroups * groupLines.length) := by
  have hne : ¬ expansion.generatedGroups = 0 := by omega
  have hmain : confirmExpansionLines genArith genCustom groupLines expansion =
      some (List.flatten (List.replicate expansion.generatedGroups
        (groupLines.map convertBitfieldConditionToText))) := by
    unfold confirmExpansionLines
    rw [if_neg hne,
      allReps_const genArith genCustom expansion groupLines hcfg hlen
        expansion.generatedGroups 0]
    rw [hdc]
    simp
  refine ⟨hmain, ?_⟩
  rw [hmain]
  simp only [Option.map_some']
  rw [length_flatten_replicate]
  simp

/-- C7 witness: two repetitions of a one-line group with a blank config
yield exactly the two identical serializations. -/
theorem c7_plain_expansion_witness :
    confirmExpansionLines genArith0 genCustom0 [exCondA]
        { generatedGroups := 2, deltaCheck := false,
          lineConfigs := [defaultLineConfig] } =
      some [strv ("A:0x1234"), strv ("A:0x1234")] ∧
    (confirmExpansionLines genArith0 genCustom0 [exCondA]
        { generatedGroups := 2, deltaCheck := false,
          lineConfigs := [defaultLineConfig] }).map List.length = some (2 * 1) := by
  have h := c7_plain_expansion_count genArith0 genCustom0 [exCondA]
    { generatedGroups := 2, deltaCheck := false, lineConfigs := [defaultLineConfig] }
    rfl (by decide) (by decide) (by decide)
  refine ⟨?_, ?_⟩
  · rw [h.1]
    decide
  · simpa using h.2

def c9Conds : List Condition :=
  [{ exCondA with flag := strv (""), lineId := 1, groupId := 2, memory := strv ("0x10") },
   { exCondA with flag := strv (""), lineId := 2, groupId := 2, memory := strv ("0x20") }]

def c9Exp : Expansion :=
  { generatedGroups := 1, deltaCheck := false,
    lineConfigs := [defaultLineConfig, defaultLineConfig] }

/-- C9 counterexample: confirming an expansion on the two-member group
`{1, 2}` (leader lineId 2) sets `expanded = true` and the full generated
line list on BOTH members; the non-leader (lineId 1) does not keep
`expandedLines` empty and `expanded` false as the claim states. -/
theorem c9_cex_all_members_populated :
    (confirmExpansion genArith0 genCustom0 [(2, c9Exp)] c9Conds 2).map
      (fun r => r.1.map (fun c => (c.lineId, c.expanded, c.expandedLines.length))) =
      some [(1, true, 2), (2, true, 2)] ∧
    ¬ (((true : Bool), (2 : Nat)) = ((false : Bool), (0 : Nat))) := by
  decide

/-- C9 (amended): after a successful `confirmExpansion`, EVERY member of
the addressed condition's group — leader and non-leaders alike — carries
`expanded = true` and the same generated `expandedLines`, and every
condition outside the group is unchanged. -/
theorem c9_expansion_populates_all_members
    (genArith : Condition → LineConfig → Nat → Str)
    (genCustom : Condition → LineConfig → Nat → List Str)
    (expansions : List (Nat × Expansion)) (conds : List Condition)
    (expansionId : Nat) (expansion : Expansion) (condition : Condition)
    (allLines : List Str)
    (hlookup : List.lookup expansionId expansions = some expansion)
    (hfind : conds.find? (fun c => c.lineId == expansionId) = some condition)
    (hlines : confirmExpansionLines genArith genCustom
        (getGroupLines conds condition.groupId) expansion = some allLines) :
    ∀ (i : Nat) (c : Condition), conds[i]? = some c →
      (confirmExpansion genArith genCustom expansions conds expansionId).map
          (fun r => r.1[i]?) =
        some (some (if c.groupId = condition.groupId then
          { c with expanded := true, expandedLines := allLines } else c)) := by
  intro i c hget
  unfold confirmExpansion
  rw [hlookup]
  dsimp only
  rw [hfind]
  dsimp only
  rw [hlines]
  simp only [Option.map_some']
  rw [List.getElem?_map, hget]
  simp only [Option.map_some', Option.some.injEq]
  by_cases h : c.groupId = condition.groupId
  · rw [if_pos (by simp [h]), if_pos h]
  · rw [if_neg (by simp [h]), if_neg h]

/-- C9 witness: the amended statement applied to the concrete two-member
group: the non-leader at index 0 ends up expanded with the generated
lines. -/
theorem c9_expansion_witness :
    (confirmExpansion genArith0 genCustom0 [(2, c9Exp)] c9Conds 2).map
        (fun r => r.1[0]?) =
      some (some { c9Conds.get ⟨0, by decide⟩ with
        expanded := true,
        expandedLines := [strv ("0x10"), strv ("0x20")] }) := by
  have h := c9_expansion_populates_all_members genArith0 genCustom0
    [(2, c9Exp)] c9Conds 2 c9Exp (c9Conds.get ⟨1, by decide⟩)
    [strv ("0x10"), strv ("0x20")]
    (by decide) (by decide) (by decide)
  have h0 := h 0 (c9Conds.get ⟨0, by decide⟩) (by decide)
  rw [h0]
  decide


-- ===========================================================================
-- rr-optimization.js (Remember/Recall pass), claim C1.
-- ===========================================================================

/-- `logicString.split('_')`. -/
def splitU : Str → List Str
  | [] => [[]]
  | c :: rest =>
    match splitU rest with
    | [] => [[]]
    | cur :: rs => if c = '_' then [] :: cur :: rs else (c :: cur) :: rs

/-- `lines.join('_')`. -/
def joinU : List Str → Str
  | [] => []
  | [x] => x
  | x :: xs => x ++ '_' :: joinU xs

/-- The `filter(line => line.trim())` applied after the split. -/
def trimFilter (ls : List Str) : List Str := ls.filter (fun l => ¬ trimL l = [])

/-- The candidate slice `lines.slice(i, i + patternLength).join('_')`. -/
def sliceJoin (lines : List Str) (i patternLength : Nat) : Str :=
  joinU ((lines.drop i).take patternLength)

/-- The occurrence-counting loop of `findBestPattern`: scan from index
`i`; a match consumes `patternLength` lines, otherwise advance by one.
`fuel` bounds the iterations; the index strictly increases each step, so
`lines.length + 1` iterations always suffice. -/
def countOccAux (lines : List Str) (patternLength : Nat) (pat : Str) :
    Nat → Nat → Nat
  | 0, _ => 0
  | fuel + 1, i =>
    if i + patternLength ≤ lines.length then
      if sliceJoin lines i patternLength = pat then
        1 + countOccAux lines patternLength pat fuel (i + patternLength)
      else countOccAux lines patternLength pat fuel (i + 1)
    else 0

/-- Non-overlapping occurrence count of a candidate pattern. -/
def countOcc (lines : List Str) (patternLength : Nat) (pat : Str) : Nat :=
  countOccAux lines patternLength pat (lines.length + 1) 0

/-- The record stored in `patternMap`. -/
structure PatInfo where
  lines : List Str
  count : Nat
  length : Nat
deriving DecidableEq, Repr

/-- One iteration of the pattern-enumeration loops: insert the candidate
at (patternLength, startIndex) when it is new and occurs at least three
times (JS `Map.set` appends new keys in insertion order). -/
def addPattern (lines : List Str) (m : List (Str × PatInfo)) (pl si : Nat) :
    List (Str × PatInfo) :=
  if (m.find? (fun p => p.1 == sliceJoin lines si pl)).isSome then m
  else
    if 3 ≤ countOcc lines pl (sliceJoin lines si pl) then
      m ++ [(sliceJoin lines si pl,
             ⟨(lines.drop si).take pl, countOcc lines pl (sliceJoin lines si pl), pl⟩)]
    else m

/-- The two nested enumeration loops of `findBestPattern`:
`patternLength` ranges over `2 .. floor(lines.length / 3)` and
`startIndex` over `0 .. lines.length - patternLength`. -/
def buildPatternMap (lines : List Str) : List (Str × PatInfo) :=
  (List.range' 2 (lines.length / 3 - 1)).foldl
    (fun m pl =>
      (List.range (lines.length - pl + 1)).foldl
        (fun m' si => addPattern lines m' pl si) m)
    []

/-- The best-pattern selection: the first map entry of strictly maximal
line-length, in insertion order. -/
def bestOf (m : List (Str × PatInfo)) : Option PatInfo × Nat :=
  m.foldl (fun acc p => if acc.2 < p.2.length then (some p.2, p.2.length) else acc)
    (none, 0)

/-- `findBestPattern(lines)` from `rr-optimization.js`. -/
def findBestPattern (lines : List Str) : Option PatInfo :=
  if lines.length < 6 then none
  else
    if buildPatternMap lines = [] then none
    else (bestOf (buildPatternMap lines)).1

/-- The `patternUsed` record of the result object. -/
structure RRPattern where
  lines : List Str
  count : Nat
  originalFlag : Str
  rememberPattern : Str
  recallReplacement : Str
deriving DecidableEq, Repr

/-- The result object of `applyRROptimization`. -/
structure RRResult where
  optimizedLogic : Str
  originalLength : Nat
  optimizedLength : Nat
  savings : Int
  patternUsed : Option RRPattern
deriving DecidableEq, Repr

/-- The `/^([A-Z]:)/` flag extraction of the pattern's last line. -/
def flagOf (line : Str) : Str :=
  match line with
  | c :: d :: _ =>
    if ('A' ≤ c ∧ c ≤ 'Z') ∧ d = ':' then [c, ':'] else []
  | _ => []

/-- The rewrite walk of `applyRROptimization`: starting at `index`, a run
equal to the pattern is replaced by the recall placeholder, other lines
are copied; underscores are inserted between emitted items exactly as the
source appends them, and when fewer than `patternLength` lines remain the
tail is joined and the loop breaks.  `fuel` bounds the iterations as for
`countOccAux`. -/
def walkAux (lines : List Str) (patternLength : Nat) (patStr recallRepl : Str) :
    Nat → Nat → Str
  | 0, _ => []
  | fuel + 1, index =>
    if index < lines.length then
      if index + patternLength ≤ lines.length then
        if sliceJoin lines index patternLength = patStr then
          recallRepl ++
            (if index + patternLength < lines.length then ['_'] else []) ++
            walkAux lines patternLength patStr recallRepl fuel (index + patternLength)
        else
          (lines.getD index []) ++
            (if index + 1 < lines.length then ['_'] else []) ++
            walkAux lines patternLength patStr recallRepl fuel (index + 1)
      else joinU (lines.drop index)
    else []

/-- `optimizedLogic.replace(/_$/, '')`. -/
def dropTrailingUnderscore (s : Str) : Str :=
  if s.getLast? = some '_' then s.dropLast else s

/-- `applyRROptimization(logicString)` from `rr-optimization.js`. -/
def applyRROptimization (logicString : Str) : RRResult :=
  let lines := trimFilter (splitU logicString)
  match findBestPattern lines with
  | none =>
    ⟨logicString, logicString.length, logicString.length, 0, none⟩
  | some pattern =>
    let lastLine := pattern.lines.getLast?.getD []
    let originalFlag := flagOf lastLine
    if originalFlag = [] then
      ⟨logicString, logicString.length, logicString.length, 0, none⟩
    else
      let rememberLines :=
        pattern.lines.dropLast ++ [replaceFirst originalFlag (strv ("K:")) lastLine]
      let rememberPattern := joinU rememberLines
      let recallReplacement := originalFlag ++ strv ("{recall}")
      let originalPatternString := joinU pattern.lines
      let optimized0 := rememberPattern ++ ['_'] ++
        walkAux lines pattern.length originalPatternString recallReplacement
          (lines.length + 1) 0
      let optimizedLogic := dropTrailingUnderscore optimized0
      ⟨optimizedLogic, logicString.length, optimizedLogic.length,
       (logicString.length : Int) - (optimizedLogic.length : Int),
       some ⟨pattern.lines, pattern.count, originalFlag, rememberPattern,
             recallReplacement⟩⟩



theorem splitU_sepfree {a : Str} (ha : ¬ '_' ∈ a) : splitU a = [a] := by
  induction a with
  | nil => rfl
  | cons c t ih =>
    have hc : ¬ c = '_' := by
      intro h
      exact ha (by simp [h])
    have ht : ¬ '_' ∈ t := fun h => ha (by simp [h])
    rw [splitU, ih ht]
    simp [hc]

theorem splitU_append {a : Str} (b : Str) (ha : ¬ '_' ∈ a) :
    splitU (a ++ '_' :: b) = a :: splitU b := by
  induction a with
  | nil =>
    simp only [List.nil_append]
    rw [splitU]
    match hb : splitU b with
    | [] => simp
    | cur :: rs => simp
  | cons c t ih =>
    have hc : ¬ c = '_' := by
      intro h
      exact ha (by simp [h])
    have ht : ¬ '_' ∈ t := fun h => ha (by simp [h])
    simp only [List.cons_append]
    rw [splitU, ih ht]
    simp [hc]

theorem join2_inj {a c : Str} (b d : Str) (ha : ¬ '_' ∈ a) (hc : ¬ '_' ∈ c) :
    a ++ '_' :: b = c ++ '_' :: d ↔ a = c ∧ b = d := by
  constructor
  · intro h
    have := congrArg splitU h
    rw [splitU_append b ha, splitU_append d hc] at this
    obtain ⟨h1, h2⟩ := List.cons.inj this
    refine ⟨h1, ?_⟩
    subst h1
    have := congrArg (List.drop (a.length + 1)) h
    simpa using this
  · intro ⟨h1, h2⟩
    rw [h1, h2]




theorem countOccAux_succ (lines : List Str) (pl : Nat) (pat : Str) (fuel i : Nat) :
    countOccAux lines pl pat (fuel + 1) i =
      if i + pl ≤ lines.length then
        if sliceJoin lines i pl = pat then
          1 + countOccAux lines pl pat fuel (i + pl)
        else countOccAux lines pl pat fuel (i + 1)
      else 0 := rfl

theorem walkAux_succ (lines : List Str) (pl : Nat) (patStr recallRepl : Str)
    (fuel index : Nat) :
    walkAux lines pl patStr recallRepl (fuel + 1) index =
      if index < lines.length then
        if index + pl ≤ lines.length then
          if sliceJoin lines index pl = patStr then
            recallRepl ++
              (if index + pl < lines.length then ['_'] else []) ++
              walkAux lines pl patStr recallRepl fuel (index + pl)
          else
            (lines.getD index []) ++
              (if index + 1 < lines.length then ['_'] else []) ++
              walkAux lines pl patStr recallRepl fuel (index + 1)
        else joinU (lines.drop index)
      else [] := rfl




example (p1 p2 : Str) : sliceJoin [p1, p2, p1, p2, p1, p2] 0 2 = p1 ++ '_' :: p2 := rfl
example (p1 p2 : Str) : sliceJoin [p1, p2, p1, p2, p1, p2] 1 2 = p2 ++ '_' :: p1 := rfl
example (p1 p2 : Str) : sliceJoin [p1, p2, p1, p2, p1, p2] 2 2 = p1 ++ '_' :: p2 := rfl
example (p1 p2 : Str) : sliceJoin [p1, p2, p1, p2, p1, p2] 3 2 = p2 ++ '_' :: p1 := rfl
example (p1 p2 : Str) : sliceJoin [p1, p2, p1, p2, p1, p2] 4 2 = p1 ++ '_' :: p2 := rfl

theorem c1_countOcc_pat0 (p1 p2 : Str) :
    countOcc [p1, p2, p1, p2, p1, p2] 2 (p1 ++ '_' :: p2) = 3 := by
  have hs0 : sliceJoin [p1, p2, p1, p2, p1, p2] 0 2 = p1 ++ '_' :: p2 := rfl
  have hs2 : sliceJoin [p1, p2, p1, p2, p1, p2] 2 2 = p1 ++ '_' :: p2 := rfl
  have hs4 : sliceJoin [p1, p2, p1, p2, p1, p2] 4 2 = p1 ++ '_' :: p2 := rfl
  show countOccAux [p1, p2, p1, p2, p1, p2] 2 (p1 ++ '_' :: p2) (6 + 1) 0 = 3
  rw [countOccAux_succ]
  norm_num [hs0]
  rw [show (6 : Nat) = 5 + 1 from rfl, countOccAux_succ]
  norm_num [hs2]
  rw [show (5 : Nat) = 4 + 1 from rfl, countOccAux_succ]
  norm_num [hs4]
  rw [show (4 : Nat) = 3 + 1 from rfl, countOccAux_succ]
  norm_num

theorem c1_countOcc_pat1 (p1 p2 : Str) (hne : ¬ p1 ++ '_' :: p2 = p2 ++ '_' :: p1) :
    countOcc [p1, p2, p1, p2, p1, p2] 2 (p2 ++ '_' :: p1) = 2 := by
  have hs0 : sliceJoin [p1, p2, p1, p2, p1, p2] 0 2 = p1 ++ '_' :: p2 := rfl
  have hs1 : sliceJoin [p1, p2, p1, p2, p1, p2] 1 2 = p2 ++ '_' :: p1 := rfl
  have hs3 : sliceJoin [p1, p2, p1, p2, p1, p2] 3 2 = p2 ++ '_' :: p1 := rfl
  show countOccAux [p1, p2, p1, p2, p1, p2] 2 (p2 ++ '_' :: p1) (6 + 1) 0 = 2
  rw [countOccAux_succ]
  norm_num [hs0, hne]
  rw [show (6 : Nat) = 5 + 1 from rfl, countOccAux_succ]
  norm_num [hs1]
  rw [show (5 : Nat) = 4 + 1 from rfl, countOccAux_succ]
  norm_num [hs3]
  rw [show (4 : Nat) = 3 + 1 from rfl, countOccAux_succ]
  norm_num

theorem c1_map (p1 p2 : Str)
    (hne01 : ¬ p1 ++ '_' :: p2 = p2 ++ '_' :: p1) :
    buildPatternMap [p1, p2, p1, p2, p1, p2] =
      [(p1 ++ '_' :: p2, ⟨[p1, p2], 3, 2⟩)] := by
  have hs0 : sliceJoin [p1, p2, p1, p2, p1, p2] 0 2 = p1 ++ '_' :: p2 := rfl
  have hs1 : sliceJoin [p1, p2, p1, p2, p1, p2] 1 2 = p2 ++ '_' :: p1 := rfl
  have hs2 : sliceJoin [p1, p2, p1, p2, p1, p2] 2 2 = p1 ++ '_' :: p2 := rfl
  have hs3 : sliceJoin [p1, p2, p1, p2, p1, p2] 3 2 = p2 ++ '_' :: p1 := rfl
  have hs4 : sliceJoin [p1, p2, p1, p2, p1, p2] 4 2 = p1 ++ '_' :: p2 := rfl
  have ha0 : addPattern [p1, p2, p1, p2, p1, p2] [] 2 0 =
      [(p1 ++ '_' :: p2, ⟨[p1, p2], 3, 2⟩)] := by
    unfold addPattern
    rw [hs0]
    norm_num [c1_countOcc_pat0]
  have ha1 : addPattern [p1, p2, p1, p2, p1, p2]
      [(p1 ++ '_' :: p2, ⟨[p1, p2], 3, 2⟩)] 2 1 =
      [(p1 ++ '_' :: p2, ⟨[p1, p2], 3, 2⟩)] := by
    unfold addPattern
    rw [hs1]
    norm_num [List.find?, beq_iff_eq, hne01, c1_countOcc_pat1 p1 p2 hne01]
  have ha2 : addPattern [p1, p2, p1, p2, p1, p2]
      [(p1 ++ '_' :: p2, ⟨[p1, p2], 3, 2⟩)] 2 2 =
      [(p1 ++ '_' :: p2, ⟨[p1, p2], 3, 2⟩)] := by
    unfold addPattern
    rw [hs2]
    norm_num [List.find?, beq_iff_eq]
  have ha3 : addPattern [p1, p2, p1, p2, p1, p2]
      [(p1 ++ '_' :: p2, ⟨[p1, p2], 3, 2⟩)] 2 3 =
      [(p1 ++ '_' :: p2, ⟨[p1, p2], 3, 2⟩)] := by
    unfold addPattern
    rw [hs3]
    norm_num [List.find?, beq_iff_eq, hne01, c1_countOcc_pat1 p1 p2 hne01]
  have ha4 : addPattern [p1, p2, p1, p2, p1, p2]
      [(p1 ++ '_' :: p2, ⟨[p1, p2], 3, 2⟩)] 2 4 =
      [(p1 ++ '_' :: p2, ⟨[p1, p2], 3, 2⟩)] := by
    unfold addPattern
    rw [hs4]
    norm_num [List.find?, beq_iff_eq]
  unfold buildPatternMap
  rw [show [p1, p2, p1, p2, p1, p2].length / 3 - 1 = 1 from by simp]
  rw [show List.range' 2 1 = [2] from rfl]
  simp only [List.foldl_cons, List.foldl_nil]
  rw [show [p1, p2, p1, p2, p1, p2].length - 2 + 1 = 5 from by simp]
  rw [show List.range 5 = [0, 1, 2, 3, 4] from by decide]
  simp only [List.foldl_cons, List.foldl_nil]
  rw [ha0, ha1, ha2, ha3, ha4]

theorem c1_best (p1 p2 : Str)
    (hne01 : ¬ p1 ++ '_' :: p2 = p2 ++ '_' :: p1) :
    findBestPattern [p1, p2, p1, p2, p1, p2] = some ⟨[p1, p2], 3, 2⟩ := by
  unfold findBestPattern
  rw [if_neg (by norm_num), c1_map p1 p2 hne01]
  rw [if_neg (by simp)]
  rfl

theorem c1_walk (p1 p2 rc : Str) :
    walkAux [p1, p2, p1, p2, p1, p2] 2 (p1 ++ '_' :: p2) rc (6 + 1) 0 =
      rc ++ '_' :: (rc ++ '_' :: rc) := by
  have hs0 : sliceJoin [p1, p2, p1, p2, p1, p2] 0 2 = p1 ++ '_' :: p2 := rfl
  have hs2 : sliceJoin [p1, p2, p1, p2, p1, p2] 2 2 = p1 ++ '_' :: p2 := rfl
  have hs4 : sliceJoin [p1, p2, p1, p2, p1, p2] 4 2 = p1 ++ '_' :: p2 := rfl
  rw [walkAux_succ]
  norm_num [hs0]
  rw [show (6 : Nat) = 5 + 1 from rfl, walkAux_succ]
  norm_num [hs2]
  rw [show (5 : Nat) = 4 + 1 from rfl, walkAux_succ]
  norm_num [hs4]
  rw [show (4 : Nat) = 3 + 1 from rfl, walkAux_succ]
  norm_num

theorem c1_amended_main (p1 p2 : Str) (c : Char) (rest : Str)
    (h1 : ¬ '_' ∈ p1) (h2 : ¬ '_' ∈ p2)
    (h3 : ¬ trimL p1 = []) (h4 : ¬ trimL p2 = [])
    (h5 : ¬ p1 = p2)
    (h6 : p2 = c :: ':' :: rest) (h7 : 'A' ≤ c) (h8 : c ≤ 'Z') :
    (applyRROptimization (joinU [p1, p2, p1, p2, p1, p2])).optimizedLogic =
      joinU [p1, 'K' :: ':' :: rest,
             c :: ':' :: strv ("{recall}"),
             c :: ':' :: strv ("{recall}"),
             c :: ':' :: strv ("{recall}")] := by
  subst h6
  have hne01 : ¬ p1 ++ '_' :: (c :: ':' :: rest) = (c :: ':' :: rest) ++ '_' :: p1 := by
    rw [join2_inj _ _ h1 h2]
    rintro ⟨ha, _⟩
    exact h5 ha
  have hsplit : trimFilter (splitU (joinU [p1, c :: ':' :: rest, p1, c :: ':' :: rest,
      p1, c :: ':' :: rest])) =
      [p1, c :: ':' :: rest, p1, c :: ':' :: rest, p1, c :: ':' :: rest] := by
    have hj : joinU [p1, c :: ':' :: rest, p1, c :: ':' :: rest, p1, c :: ':' :: rest] =
        p1 ++ '_' :: ((c :: ':' :: rest) ++ '_' :: (p1 ++ '_' ::
          ((c :: ':' :: rest) ++ '_' :: (p1 ++ '_' :: (c :: ':' :: rest))))) := rfl
    rw [hj, splitU_append _ h1, splitU_append _ h2, splitU_append _ h1,
      splitU_append _ h2, splitU_append _ h1, splitU_sepfree h2]
    unfold trimFilter
    apply List.filter_eq_self.2
    intro a ha
    simp only [List.mem_cons] at ha
    rcases ha with rfl | rfl | rfl | rfl | rfl | rfl | hf
    · simpa using h3
    · simpa using h4
    · simpa using h3
    · simpa using h4
    · simpa using h3
    · simpa using h4
    · simp at hf
  unfold applyRROptimization
  rw [hsplit]
  dsimp only
  rw [c1_best p1 (c :: ':' :: rest) hne01]
  dsimp only
  have hflag : flagOf (c :: ':' :: rest) = [c, ':'] := by
    unfold flagOf
    dsimp only
    rw [if_pos ⟨⟨h7, h8⟩, rfl⟩]
  rw [show ([p1, c :: ':' :: rest] : List Str).getLast?.getD [] = c :: ':' :: rest from rfl]
  rw [hflag]
  rw [if_neg (by simp)]
  have hpre : List.isPrefixOf [c, ':'] (c :: ':' :: rest) = true := by
    simp [List.isPrefixOf]
  have hrepl : replaceFirst [c, ':'] (strv ("K:")) (c :: ':' :: rest) =
      'K' :: ':' :: rest := by
    unfold replaceFirst
    rw [if_pos hpre]
    rfl
  rw [hrepl]
  rw [show ([p1, c :: ':' :: rest] : List Str).dropLast = [p1] from rfl]
  rw [show joinU [p1, c :: ':' :: rest] = p1 ++ '_' :: (c :: ':' :: rest) from rfl]
  rw [show ([p1, c :: ':' :: rest, p1, c :: ':' :: rest, p1,
    c :: ':' :: rest] : List Str).length + 1 = 6 + 1 from by simp]
  rw [c1_walk]
  rw [show ([p1] ++ ['K' :: ':' :: rest] : List Str) = [p1, 'K' :: ':' :: rest] from rfl]
  have key : ∀ (X : Str), dropTrailingUnderscore (X ++ strv ("{recall}")) =
      X ++ strv ("{recall}") := by
    intro X
    unfold dropTrailingUnderscore
    rw [if_neg ?hne]
    case hne =>
      rw [List.getLast?_append]
      simp [show (strv ("{recall}")).getLast? = some '}' from rfl]
  have hshape : (joinU [p1, 'K' :: ':' :: rest] ++ ['_'] ++
      (([c, ':'] ++ strv ("{recall}")) ++ '_' ::
        (([c, ':'] ++ strv ("{recall}")) ++ '_' :: ([c, ':'] ++ strv ("{recall}"))))) =
      (joinU [p1, 'K' :: ':' :: rest] ++ ['_'] ++
        (([c, ':'] ++ strv ("{recall}")) ++ '_' ::
          (([c, ':'] ++ strv ("{recall}")) ++ ('_' :: [c, ':']))) ) ++ strv ("{recall}") := by
    simp [List.append_assoc]
  rw [hshape, key]
  simp [joinU, strv, List.append_assoc]

/-- C1 counterexample: for the 2-line pattern "A:1=1_B:2=2" repeated exactly 3
times back-to-back, applyRROptimization emits the remember pattern followed by
THREE recall placeholder lines (every occurrence of the pattern, including the
first, is replaced), not the two recall lines the claim predicts. -/
theorem c1_cex_three_recalls :
    (applyRROptimization (strv ("A:1=1_B:2=2_A:1=1_B:2=2_A:1=1_B:2=2"))).optimizedLogic =
      strv ("A:1=1_K:2=2_B:{recall}_B:{recall}_B:{recall}") ∧
    ¬ (applyRROptimization (strv ("A:1=1_B:2=2_A:1=1_B:2=2_A:1=1_B:2=2"))).optimizedLogic =
      strv ("A:1=1_K:2=2_B:{recall}_B:{recall}") := by
  constructor
  · decide
  · decide

/-- C1 witness: c1_amended_main instantiated at p1 = "A:1=1", p2 = "B:2=2". -/
theorem c1_amended_witness :
    (applyRROptimization (joinU [strv ("A:1=1"), strv ("B:2=2"), strv ("A:1=1"),
        strv ("B:2=2"), strv ("A:1=1"), strv ("B:2=2")])).optimizedLogic =
      joinU [strv ("A:1=1"), 'K' :: ':' :: strv ("2=2"),
        'B' :: ':' :: strv ("{recall}"), 'B' :: ':' :: strv ("{recall}"),
        'B' :: ':' :: strv ("{recall}")] :=
  c1_amended_main (strv ("A:1=1")) (strv ("B:2=2")) 'B' (strv ("2=2"))
    (by decide) (by decide) (by decide) (by decide) (by decide)
    rfl (by decide) (by decide)

end MLG
